import Mathlib

/-!
Verification of the video ingestion and caching pipeline
(`src/main/services/VideoIngestService.ts`).

Shallow embedding conventions:
* JavaScript strings that are processed character by character (subtitle
  text, tool output) are embedded as `List Char`; strings that are only
  compared or tested for emptiness (file paths, mime types) stay `String`.
* JavaScript numbers are embedded as `ℚ` (the pipeline's arithmetic on
  durations and timestamps), with `Number.NaN` / non-finite outcomes
  embedded as `Option`-failure at the point where the source checks
  `Number.isFinite` / `Number.isNaN`.
* Filesystem and child-process effects are embedded as explicit
  environment records whose fields hold the outcome of each effectful
  step (`Except` for steps whose promise can reject).
-/

/-! ### JavaScript string primitives -/

/-- The characters matched by the JavaScript `\s` class (ASCII range) and
trimmed by `String.prototype.trim`. -/
def jsWhitespace (c : Char) : Bool :=
  c = ' ' || c = '\t' || c = '\n' || c = '\x0b' || c = '\x0c' || c = '\r'

/-- `String.prototype.trim`: drop whitespace from both ends. -/
def trimChars (s : List Char) : List Char :=
  ((s.dropWhile jsWhitespace).reverse.dropWhile jsWhitespace).reverse

/-- `content.replace(/\r\n/g, '\n')`: left-to-right, non-overlapping. -/
def replaceCrLf : List Char → List Char
  | '\r' :: '\n' :: rest => '\n' :: replaceCrLf rest
  | c :: rest => c :: replaceCrLf rest
  | [] => []

/-- `content.replace(/^WEBVTT\n?/i, '')`: strip a case-insensitive
`WEBVTT` at the very start together with one following newline. -/
def stripWebVtt (s : List Char) : List Char :=
  match s with
  | c1 :: c2 :: c3 :: c4 :: c5 :: c6 :: rest =>
    if c1.toLower = 'w' ∧ c2.toLower = 'e' ∧ c3.toLower = 'b' ∧
        c4.toLower = 'v' ∧ c5.toLower = 't' ∧ c6.toLower = 't' then
      match rest with
      | '\n' :: rest2 => rest2
      | _ => rest
    else s
  | _ => s

/-- Index of the last `'\n'` in a list, if any. -/
def lastNewlineIdx (l : List Char) : Option ℕ :=
  match l.reverse.findIdx? (fun c => c = '\n') with
  | none => none
  | some i => some (l.length - 1 - i)

/-- After an initial `'\n'`, the regex `/\n\s*\n/` greedily matches
whitespace followed by a final `'\n'`.  Given the remainder after the
initial newline, returns the remainder after the whole match, or `none`
when the pattern does not match here. -/
def greedySepTail (rest : List Char) : Option (List Char) :=
  match lastNewlineIdx (rest.takeWhile jsWhitespace) with
  | none => none
  | some j => some (rest.drop (j + 1))

/-- `content.split(/\n\s*\n/)` with JavaScript's leftmost, greedy regex
matching.  The scan consumes at least one character per step, so running
it on fuel `l.length` (kept structural so that the kernel can evaluate
it; see `greedySepTail_length_le`) is exact. -/
def splitBlocksFuel : ℕ → List Char → List Char → List (List Char)
  | 0, _, acc => [acc.reverse]
  | fuel + 1, l, acc =>
    match l with
    | [] => [acc.reverse]
    | c :: rest =>
      if c = '\n' then
        match greedySepTail rest with
        | some rem => acc.reverse :: splitBlocksFuel fuel rem []
        | none => splitBlocksFuel fuel rest (c :: acc)
      else splitBlocksFuel fuel rest (c :: acc)

def splitBlocks (l : List Char) : List (List Char) :=
  splitBlocksFuel l.length l []

/-- `s.split(sep)` for a single-character separator. -/
def splitOnCharAux (sep : Char) (l : List Char) (acc : List Char) : List (List Char) :=
  match l with
  | [] => [acc.reverse]
  | c :: rest =>
    if c = sep then acc.reverse :: splitOnCharAux sep rest []
    else splitOnCharAux sep rest (c :: acc)

def splitOnChar (sep : Char) (l : List Char) : List (List Char) :=
  splitOnCharAux sep l []

/-- `line.includes('-->')`. -/
def hasArrow : List Char → Bool
  | '-' :: '-' :: '>' :: _ => true
  | _ :: rest => hasArrow rest
  | [] => false

/-- `line.split('-->')`. -/
def splitOnArrowAux : List Char → List Char → List (List Char)
  | '-' :: '-' :: '>' :: rest, acc => acc.reverse :: splitOnArrowAux rest []
  | c :: rest, acc => splitOnArrowAux rest (c :: acc)
  | [], acc => [acc.reverse]

def splitOnArrow (l : List Char) : List (List Char) :=
  splitOnArrowAux l []

/-- After a `'<'`, the regex `/<[^>]+>/` needs at least one non-`'>'`
character and then a `'>'`; returns the remainder after the `'>'`. -/
def tagEndAux : List Char → Option (List Char)
  | [] => none
  | c :: rest => if c = '>' then some rest else tagEndAux rest

def tagEnd : List Char → Option (List Char)
  | [] => none
  | c :: rest => if c = '>' then none else tagEndAux rest

/-- `text.replace(/<[^>]+>/g, '')`: remove every non-overlapping match of
`<[^>]+>`; an unmatched `'<'` is kept.  Each step consumes at least one
character (`tagEnd_length_lt`), so fuel `s.length` is exact; the fuel
keeps the recursion structural for kernel evaluation. -/
def stripTagsFuel : ℕ → List Char → List Char
  | 0, s => s
  | fuel + 1, s =>
    match s with
    | [] => []
    | c :: rest =>
      if c = '<' then
        match tagEnd rest with
        | some rem => stripTagsFuel fuel rem
        | none => c :: stripTagsFuel fuel rest
      else c :: stripTagsFuel fuel rest

def stripTags (s : List Char) : List Char :=
  stripTagsFuel s.length s

/-! ### Numeric parsing (`Number.parseFloat`, `Number.parseInt`) -/

/-- Value of a list of decimal digit characters. -/
def digitsToNat (ds : List Char) : ℕ :=
  ds.foldl (fun n c => 10 * n + (c.toNat - 48)) 0

/-- `10 ^ e` for an integer exponent, as a rational. -/
def pow10 : ℤ → ℚ
  | Int.ofNat n => (10 : ℚ) ^ n
  | Int.negSucc n => 1 / (10 : ℚ) ^ (n + 1)

/-- `Number.parseFloat`: skip leading whitespace, optional sign, longest
decimal-literal prefix (`digits [.digits] [e|E [sign] digits]`), `NaN`
(`none`) when no digits are found.  A literal `Infinity` is also mapped
to `none`: every call site immediately discards non-finite values via
`Number.isFinite`. -/
def parseFloat (s : List Char) : Option ℚ :=
  let s1 := s.dropWhile jsWhitespace
  let signAndRest : ℚ × List Char :=
    match s1 with
    | '-' :: r => (-1, r)
    | '+' :: r => (1, r)
    | _ => (1, s1)
  let sign := signAndRest.1
  let s2 := signAndRest.2
  match s2 with
  | 'I' :: 'n' :: 'f' :: 'i' :: 'n' :: 'i' :: 't' :: 'y' :: _ => none
  | _ =>
    let intDs := s2.takeWhile Char.isDigit
    let s3 := s2.dropWhile Char.isDigit
    let fracAndRest : List Char × List Char :=
      match s3 with
      | '.' :: r => (r.takeWhile Char.isDigit, r.dropWhile Char.isDigit)
      | _ => ([], s3)
    let fracDs := fracAndRest.1
    let s4 := fracAndRest.2
    if intDs.isEmpty ∧ fracDs.isEmpty then none
    else
      let mantissa : ℚ :=
        (digitsToNat intDs : ℚ) + (digitsToNat fracDs : ℚ) / (10 : ℚ) ^ fracDs.length
      let exp : ℤ :=
        match s4 with
        | e :: r =>
          if e = 'e' ∨ e = 'E' then
            let esignAndRest : ℤ × List Char :=
              match r with
              | '-' :: rr => (-1, rr)
              | '+' :: rr => (1, rr)
              | _ => (1, r)
            let eds := esignAndRest.2.takeWhile Char.isDigit
            if eds.isEmpty then 0 else esignAndRest.1 * (digitsToNat eds : ℤ)
          else 0
        | [] => 0
      some (sign * mantissa * pow10 exp)

/-- `Number.parseInt(s, 10)`: skip leading whitespace, optional sign,
longest decimal-digit prefix, `NaN` (`none`) when no digits are found. -/
def parseInt (s : List Char) : Option ℤ :=
  let s1 := s.dropWhile jsWhitespace
  let signAndRest : ℤ × List Char :=
    match s1 with
    | '-' :: r => (-1, r)
    | '+' :: r => (1, r)
    | _ => (1, s1)
  let ds := signAndRest.2.takeWhile Char.isDigit
  if ds.isEmpty then none else some (signAndRest.1 * (digitsToNat ds : ℤ))

/-- `timecode.replace(',', '.')`: a string pattern replaces only the
first occurrence. -/
def replaceFirstComma : List Char → List Char
  | [] => []
  | c :: rest => if c = ',' then '.' :: rest else c :: replaceFirstComma rest

/-- `parseTimecode` (source lines 414-431): normalize the decimal
separator, trim, split on `':'`; accept 2 or 3 parts; seconds via
`parseFloat`, minutes (and hours when present) via `parseInt`; `none`
models the `Number.NaN` return. -/
def parseTimecode (timecode : List Char) : Option ℚ :=
  let normalized := trimChars (replaceFirstComma timecode)
  let parts := splitOnChar ':' normalized
  if parts.length < 2 ∨ parts.length > 3 then none
  else
    let secondsR := parseFloat (parts.getLastD [])
    let minutesR := parseInt (parts.getD (parts.length - 2) [])
    let hoursR : Option ℤ := if parts.length = 3 then parseInt (parts.getD 0 []) else some 0
    match secondsR, minutesR, hoursR with
    | some seconds, some minutes, some hours =>
      some ((hours : ℚ) * 3600 + (minutes : ℚ) * 60 + seconds)
    | _, _, _ => none

/-! ### Subtitle parsing (`parseSubtitle`, source lines 363-412) -/

/-- `VideoTranscriptSegment` from `@types`: invariantly `endSec > startSec`
and non-empty `text` when produced by `parseSubtitle`. -/
structure VideoTranscriptSegment where
  startSec : ℚ
  endSec : ℚ
  text : List Char
  deriving Repr, DecidableEq

/-- The character-level part of one block iteration of `parseSubtitle`'s
loop: trimmed non-blank lines, the first line containing `-->`, the two
timecode tokens (text before the first space of each trimmed half), and
the tag-stripped, trimmed cue text of the remaining lines.  Returns
`none` when no line contains `-->` (the loop's first `continue`). -/
def blockParts (block : List Char) : Option (List Char × List Char × List Char) :=
  let lines := ((splitOnChar '\n' block).map trimChars).filter (fun l => !l.isEmpty)
  match lines.findIdx? hasArrow with
  | none => none
  | some timelineIndex =>
    let pieces := (splitOnArrow (lines.getD timelineIndex [])).map trimChars
    let rawStart := pieces.getD 0 []
    let rawEnd := pieces.getD 1 []
    let startToken := (splitOnChar ' ' rawStart).getD 0 []
    let endToken := (splitOnChar ' ' rawEnd).getD 0 []
    let text := trimChars (stripTags (List.intercalate [' '] (lines.drop (timelineIndex + 1))))
    some (startToken, endToken, text)

/-- One iteration of `parseSubtitle`'s block loop: `none` models
`continue` (no timeline line, unparseable timecode, `end <= start`, or
empty text after tag stripping). -/
def parseBlock (block : List Char) : Option VideoTranscriptSegment :=
  match blockParts block with
  | none => none
  | some (startToken, endToken, text) =>
    match parseTimecode startToken, parseTimecode endToken with
    | some startSec, some endSec =>
      if endSec ≤ startSec then none
      else if text.isEmpty then none
      else some ⟨startSec, endSec, text⟩
    | _, _ => none

/-- Stable insertion used to model `segments.sort((a, b) => a.startSec -
b.startSec)` (JavaScript `Array.prototype.sort` is stable). -/
def insertByStart (s : VideoTranscriptSegment) :
    List VideoTranscriptSegment → List VideoTranscriptSegment
  | [] => [s]
  | t :: ts => if s.startSec < t.startSec then s :: t :: ts else t :: insertByStart s ts

def sortByStart (l : List VideoTranscriptSegment) : List VideoTranscriptSegment :=
  l.foldl (fun acc s => insertByStart s acc) []

/-- `parseSubtitle` (source lines 363-412): normalize line endings, strip
a leading `WEBVTT` header, split into blocks on blank lines, parse each
block independently, sort the surviving segments by `startSec`. -/
def parseSubtitle (content : List Char) : List VideoTranscriptSegment :=
  let normalizedContent := stripWebVtt (replaceCrLf content)
  let blocks := ((splitBlocks normalizedContent).map trimChars).filter (fun b => !b.isEmpty)
  let segments := blocks.foldl
    (fun acc b =>
      match parseBlock b with
      | none => acc
      | some seg => acc ++ [seg]) []
  sortByStart segments

/-! ### Options (`VideoIngestOptions`, `normalizeOptions`, source lines 114-146) -/

/-- A JavaScript number: either a finite value or one of the non-finite
values rejected by `Number.isFinite`. -/
inductive JsNum where
  | num (q : ℚ)
  | nan
  | inf
  | negInf
  deriving Repr, DecidableEq

/-- Caller-supplied `VideoIngestOptions`: every field optional (a missing
field and a field explicitly set to `undefined` merge identically with
the defaults, since `Number.isFinite(undefined)` is `false`). -/
structure VideoIngestOptions where
  frameIntervalSec : Option JsNum
  maxFrames : Option JsNum
  segmentDurationSec : Option JsNum
  maxAudioDurationSec : Option JsNum
  deriving Repr, DecidableEq

/-- `Required<VideoIngestOptions>` after normalization.  `maxFrames` is
integral after `Math.floor`, so it is embedded as `ℤ`. -/
structure RequiredVideoIngestOptions where
  frameIntervalSec : ℚ
  maxFrames : ℤ
  segmentDurationSec : ℚ
  maxAudioDurationSec : ℚ
  deriving Repr, DecidableEq

def DEFAULT_INGEST_OPTIONS : RequiredVideoIngestOptions :=
  { frameIntervalSec := 2, maxFrames := 12, segmentDurationSec := 20, maxAudioDurationSec := 600 }

/-- `normalizeOptions` (source lines 114-146): merge the caller's options
over the defaults, then replace each non-finite or out-of-range value by
its default; `maxFrames` is additionally floored. -/
def normalizeOptions (options : Option VideoIngestOptions) : RequiredVideoIngestOptions :=
  let opts := options.getD ⟨none, none, none, none⟩
  let mergedFrameInterval := opts.frameIntervalSec.getD (.num DEFAULT_INGEST_OPTIONS.frameIntervalSec)
  let mergedMaxFrames := opts.maxFrames.getD (.num (DEFAULT_INGEST_OPTIONS.maxFrames : ℚ))
  let mergedSegmentDuration := opts.segmentDurationSec.getD (.num DEFAULT_INGEST_OPTIONS.segmentDurationSec)
  let mergedMaxAudioDuration := opts.maxAudioDurationSec.getD (.num DEFAULT_INGEST_OPTIONS.maxAudioDurationSec)
  { frameIntervalSec :=
      match mergedFrameInterval with
      | .num q => if 0 < q then q else DEFAULT_INGEST_OPTIONS.frameIntervalSec
      | _ => DEFAULT_INGEST_OPTIONS.frameIntervalSec
    maxFrames :=
      match mergedMaxFrames with
      | .num q => if 0 ≤ q then ⌊q⌋ else DEFAULT_INGEST_OPTIONS.maxFrames
      | _ => DEFAULT_INGEST_OPTIONS.maxFrames
    segmentDurationSec :=
      match mergedSegmentDuration with
      | .num q => if 0 < q then q else DEFAULT_INGEST_OPTIONS.segmentDurationSec
      | _ => DEFAULT_INGEST_OPTIONS.segmentDurationSec
    maxAudioDurationSec :=
      match mergedMaxAudioDuration with
      | .num q => if 0 < q then q else DEFAULT_INGEST_OPTIONS.maxAudioDurationSec
      | _ => DEFAULT_INGEST_OPTIONS.maxAudioDurationSec }

/-! ### Result data model (`@types`) -/

structure VideoIngestFrame where
  path : String
  mime : String
  timestampSec : ℚ
  deriving Repr, DecidableEq

structure VideoIngestAudio where
  path : String
  mime : String
  sampleRate : ℕ
  channels : ℕ
  size : ℕ
  deriving Repr, DecidableEq

structure VideoIngestTranscript where
  path : String
  format : String
  segments : List VideoTranscriptSegment
  deriving Repr, DecidableEq

/-- `VideoIngestSegment`: `representativeFramePath` and `transcript` are
optional properties that start absent and may be assigned later. -/
structure VideoIngestSegment where
  index : ℕ
  startSec : ℚ
  endSec : ℚ
  framePaths : List String
  representativeFramePath : Option String
  transcript : Option (List Char)
  deriving Repr, DecidableEq

structure VideoIngestResult where
  sourceFileId : String
  sourceHash : String
  sourcePath : String
  createdAt : String
  cacheDir : String
  durationSec : ℚ
  frameIntervalSec : ℚ
  segmentDurationSec : ℚ
  frames : List VideoIngestFrame
  segments : List VideoIngestSegment
  audio : Option VideoIngestAudio
  transcript : Option VideoIngestTranscript
  deriving Repr, DecidableEq

/-! ### Cache manager (`loadCachedResult`, source lines 158-213) -/

def CACHE_VERSION : ℤ := 1

structure VideoIngestCacheManifest where
  version : ℤ
  options : RequiredVideoIngestOptions
  result : VideoIngestResult
  deriving Repr, DecidableEq

/-- The filesystem as the cache manager sees it: `fileExists` embeds
`fs.existsSync`; `readManifest` embeds the composite
`fs.promises.readFile` + `JSON.parse` (an `error` value stands for a
rejected read or a parse exception). -/
structure CacheFs where
  fileExists : String → Bool
  readManifest : String → Except String VideoIngestCacheManifest

/-- `isSameOptions` (source lines 189-196). -/
def isSameOptions (a b : RequiredVideoIngestOptions) : Bool :=
  a.frameIntervalSec = b.frameIntervalSec ∧
  a.maxFrames = b.maxFrames ∧
  a.segmentDurationSec = b.segmentDurationSec ∧
  a.maxAudioDurationSec = b.maxAudioDurationSec

/-- `isResultFilesReady` (source lines 198-213): every frame path, the
audio path when audio is present, and the transcript path when a
transcript is present must exist on disk. -/
def isResultFilesReady (fs : CacheFs) (result : VideoIngestResult) : Bool :=
  result.frames.all (fun frame => fs.fileExists frame.path) &&
  (match result.audio with
   | some audio => fs.fileExists audio.path
   | none => true) &&
  (match result.transcript with
   | some transcript => fs.fileExists transcript.path
   | none => true)

/-- `loadCachedResult` (source lines 158-187): manifest existence, then
read/parse (any exception is caught and becomes a miss), then version
check, option equality, and file readiness. -/
def loadCachedResult (fs : CacheFs) (manifestPath : String)
    (options : RequiredVideoIngestOptions) : Option VideoIngestResult :=
  if !fs.fileExists manifestPath then none
  else
    match fs.readManifest manifestPath with
    | .error _ => none
    | .ok parsed =>
      if parsed.version ≠ CACHE_VERSION then none
      else if !isSameOptions parsed.options options then none
      else if !isResultFilesReady fs parsed.result then none
      else some parsed.result

/-! ### Segment builder (`buildSegments`, source lines 433-476) -/

/-- `effectiveDuration` (source lines 439-441). -/
def effectiveDuration (frames : List VideoIngestFrame)
    (transcriptSegments : List VideoTranscriptSegment)
    (durationSec segmentDurationSec : ℚ) : ℚ :=
  let maxFrameTimestamp :=
    match frames.getLast? with
    | some f => f.timestampSec
    | none => 0
  let maxTranscriptTimestamp :=
    transcriptSegments.foldl (fun m s => max m s.endSec) 0
  max (max (max durationSec maxFrameTimestamp) maxTranscriptTimestamp) segmentDurationSec

/-- `segmentCount = Math.max(1, Math.ceil(effectiveDuration / segmentDurationSec))`
(source line 442). -/
def segmentCount (frames : List VideoIngestFrame)
    (transcriptSegments : List VideoTranscriptSegment)
    (durationSec segmentDurationSec : ℚ) : ℕ :=
  (max 1 ⌈effectiveDuration frames transcriptSegments durationSec segmentDurationSec /
    segmentDurationSec⌉).toNat

/-- The clamped bucket index for one frame (source line 452):
`Math.min(Math.floor(frame.timestampSec / segmentDurationSec), segmentCount - 1)`.
The `ℤ → ℕ` conversion is exact whenever the timestamp is non-negative
(frames produced by extraction have `timestampSec = index * frameIntervalSec ≥ 0`). -/
def frameBucket (timestampSec segmentDurationSec : ℚ) (count : ℕ) : ℕ :=
  (min ⌊timestampSec / segmentDurationSec⌋ ((count : ℤ) - 1)).toNat

/-- In-place update of the element at an index, as JavaScript's
`segments[segmentIndex].framePaths.push(...)` mutates one array slot. -/
def modifyAt : List α → ℕ → (α → α) → List α
  | [], _, _ => []
  | a :: as, 0, f => f a :: as
  | a :: as, n + 1, f => a :: modifyAt as n f

/-- Source lines 444-449: `segmentCount` fresh segments. -/
def initSegments (count : ℕ) (segmentDurationSec eff : ℚ) : List VideoIngestSegment :=
  (List.range count).map fun index =>
    { index := index
      startSec := (index : ℚ) * segmentDurationSec
      endSec := min (((index : ℚ) + 1) * segmentDurationSec) eff
      framePaths := []
      representativeFramePath := none
      transcript := none }

/-- Source lines 451-454: append each frame's path to its clamped bucket. -/
def assignFrames (segs : List VideoIngestSegment) (frames : List VideoIngestFrame)
    (segmentDurationSec : ℚ) (count : ℕ) : List VideoIngestSegment :=
  frames.foldl
    (fun acc frame =>
      modifyAt acc (frameBucket frame.timestampSec segmentDurationSec count)
        (fun seg => { seg with framePaths := seg.framePaths ++ [frame.path] }))
    segs

/-- Source lines 456-460: first assigned frame path becomes the
representative. -/
def setRepresentatives (segs : List VideoIngestSegment) : List VideoIngestSegment :=
  segs.map fun seg =>
    match seg.framePaths with
    | [] => seg
    | p :: _ => { seg with representativeFramePath := some p }

/-- `[segment.transcript, transcriptSegment.text].filter(Boolean).join(' ').trim()`
(source line 465): falsy entries (absent, or the empty string) are
dropped before joining. -/
def mergeTranscriptText (cur : Option (List Char)) (text : List Char) : List Char :=
  trimChars (List.intercalate [' '] ((cur.toList ++ [text]).filter (fun s => !s.isEmpty)))

/-- Source lines 462-468: append each transcript segment's text to every
timeline segment whose interval it overlaps. -/
def applyTranscripts (segs : List VideoIngestSegment)
    (transcriptSegments : List VideoTranscriptSegment) : List VideoIngestSegment :=
  transcriptSegments.foldl
    (fun acc t =>
      acc.map fun seg =>
        if t.startSec < seg.endSec ∧ t.endSec > seg.startSec then
          { seg with transcript := some (mergeTranscriptText seg.transcript t.text) }
        else seg)
    segs

/-- JavaScript truthiness of `string | undefined`: `undefined` and the
empty string are falsy. -/
def truthyStr : Option String → Bool
  | none => false
  | some s => !(s == "")

def truthyChars : Option (List Char) → Bool
  | none => false
  | some l => !l.isEmpty

/-- The retention filter's predicate (source lines 470-475), taking the
positional index supplied by `Array.prototype.filter`. -/
def keepSegment (index : ℕ) (seg : VideoIngestSegment) : Bool :=
  index == 0 || truthyStr seg.representativeFramePath || truthyChars seg.transcript

/-- All of `buildSegments` (source lines 433-476) before the final
retention filter. -/
def buildSegmentsAll (frames : List VideoIngestFrame)
    (transcriptSegments : List VideoTranscriptSegment)
    (durationSec segmentDurationSec : ℚ) : List VideoIngestSegment :=
  let eff := effectiveDuration frames transcriptSegments durationSec segmentDurationSec
  let count := segmentCount frames transcriptSegments durationSec segmentDurationSec
  applyTranscripts
    (setRepresentatives (assignFrames (initSegments count segmentDurationSec eff) frames
      segmentDurationSec count))
    transcriptSegments

/-- `buildSegments` (source lines 433-476): the constructed segments,
filtered to keep segment 0 unconditionally and otherwise only segments
with a truthy representative frame path or transcript. -/
def buildSegments (frames : List VideoIngestFrame)
    (transcriptSegments : List VideoTranscriptSegment)
    (durationSec segmentDurationSec : ℚ) : List VideoIngestSegment :=
  (((buildSegmentsAll frames transcriptSegments durationSec segmentDurationSec).enum.filter
    (fun p => keepSegment p.1 p.2)).map Prod.snd)

/-- The index/start/end data of a segment, unchanged by frame assignment,
representative selection, and transcript overlay. -/
def segShape (seg : VideoIngestSegment) : ℕ × ℚ × ℚ :=
  (seg.index, seg.startSec, seg.endSec)

/-! ### Process runner (`runCommand`, source lines 478-515) -/

/-- `output.length > 1200 ? output.slice(0, 1200) + '...' : output`
(source line 511). -/
def truncateOutput (output : List Char) : List Char :=
  if output.length > 1200 then output.take 1200 ++ "...".toList else output

/-- The `close` handler of `runCommand` (source lines 504-513), given the
process exit code and the accumulated stdout/stderr: zero exit resolves
with both streams; non-zero exit rejects with
`` `${command} exited with code ${code}: ${shortOutput}` `` where the
output is `(stderr || stdout).trim()` truncated by `truncateOutput`. -/
def runCommandClose (command : List Char) (code : ℤ) (stdout stderr : List Char) :
    Except (List Char) (List Char × List Char) :=
  if code = 0 then .ok (stdout, stderr)
  else
    let output := trimChars (if stderr.isEmpty then stdout else stderr)
    let shortOutput := truncateOutput output
    .error (command ++ " exited with code ".toList ++ (toString code).toList ++
      ": ".toList ++ shortOutput)

/-! ### Audio extraction (`extractAudio`, source lines 289-329) -/

/-- Outcomes of the three effectful steps of `extractAudio`, in program
order: the stale-file removal `fs.promises.rm(audioPath, {force: true})`
(before the `try` block; with `force` it ignores a missing file but its
promise still rejects on other filesystem errors), the `ffmpeg`
invocation (rejects when the binary is missing or exits non-zero), and
`fs.promises.stat` on the produced file (yielding its size). -/
structure AudioExtractionEnv where
  rmStale : Except String Unit
  runFfmpeg : Except String Unit
  statSize : Except String ℕ

/-- `extractAudio` (source lines 289-329).  The `try` block starts after
the stale-file removal; everything inside it is caught and converted to
`undefined` (`none`), while a rejection of the removal itself
propagates. -/
def extractAudio (env : AudioExtractionEnv) (audioPath : String) :
    Except String (Option VideoIngestAudio) :=
  match env.rmStale with
  | .error e => .error e
  | .ok _ =>
    match env.runFfmpeg with
    | .error _ => .ok none
    | .ok _ =>
      match env.statSize with
      | .error _ => .ok none
      | .ok size =>
        .ok (some
          { path := audioPath
            mime := "audio/wav"
            sampleRate := 16000
            channels := 1
            size := size })

/-! ### Frame extraction (`extractFrames`, source lines 243-287) -/

/-- Outcomes of the effectful steps of `extractFrames`, in program order:
recursive removal of the frames directory, its re-creation, the `ffmpeg`
invocation, and `fs.promises.readdir` (yielding the file names). -/
structure FrameExtractionEnv where
  rmFramesDir : Except String Unit
  mkdirFramesDir : Except String Unit
  runFfmpeg : Except String Unit
  readdirFrames : Except String (List String)

/-- The readdir filter (source line 275). -/
def isImageFileName (name : List Char) : Bool :=
  "gpj.".toList.isPrefixOf name.reverse || "gepj.".toList.isPrefixOf name.reverse ||
    "gnp.".toList.isPrefixOf name.reverse

/-- `a.localeCompare(b)` ordering, embedded as code-point order (the two
agree on the `frame_NNNNNN.jpg` names produced by the extraction tool);
JavaScript `Array.prototype.sort` is stable, so a stable insertion sort. -/
def insertFileName (s : String) : List String → List String
  | [] => [s]
  | t :: ts => if s < t then s :: t :: ts else t :: insertFileName s ts

def sortFileNames (l : List String) : List String :=
  l.foldl (fun acc s => insertFileName s acc) []

/-- `mime.lookup`, restricted to the extensions that survive the readdir
filter; the call site falls back to `image/jpeg` when the lookup does
not return a string. -/
def mimeLookup (p : String) : Option String :=
  if "gnp.".toList.isPrefixOf p.toList.reverse then some "image/png"
  else if "gpj.".toList.isPrefixOf p.toList.reverse then some "image/jpeg"
  else if "gepj.".toList.isPrefixOf p.toList.reverse then some "image/jpeg"
  else none

/-- `path.join(framesDir, fileName)`. -/
def joinPath (dir name : String) : String :=
  dir ++ "/" ++ name

/-- `extractFrames` (source lines 243-287): `maxFrames <= 0` returns `[]`
before any effect; otherwise clear and recreate the frames directory,
run the tool, read the directory back, keep image files, sort, and map
to frames with `timestampSec = index * frameIntervalSec`.  Failures here
are not caught. -/
def extractFrames (env : FrameExtractionEnv) (framesDir : String)
    (options : RequiredVideoIngestOptions) : Except String (List VideoIngestFrame) :=
  if options.maxFrames ≤ 0 then .ok []
  else
    match env.rmFramesDir with
    | .error e => .error e
    | .ok _ =>
      match env.mkdirFramesDir with
      | .error e => .error e
      | .ok _ =>
        match env.runFfmpeg with
        | .error e => .error e
        | .ok _ =>
          match env.readdirFrames with
          | .error e => .error e
          | .ok files =>
            let frameFiles := sortFileNames (files.filter (fun f => isImageFileName f.toList))
            .ok (frameFiles.enum.map fun p =>
              { path := joinPath framesDir p.2
                mime := (mimeLookup (joinPath framesDir p.2)).getD "image/jpeg"
                timestampSec := (p.1 : ℚ) * options.frameIntervalSec })

/-! ### Theorems.  Evaluation lemmas for concrete timecode tokens. -/

theorem greedySepTail_length_le {rest rem : List Char}
    (h : greedySepTail rest = some rem) : rem.length ≤ rest.length := by
  unfold greedySepTail at h
  cases hidx : lastNewlineIdx (rest.takeWhile jsWhitespace) with
  | none => rw [hidx] at h; exact absurd h (by simp)
  | some j =>
    rw [hidx] at h
    simp only [Option.some.injEq] at h
    subst h
    simp [List.length_drop]

theorem tagEndAux_length_lt {l r : List Char} (h : tagEndAux l = some r) :
    r.length < l.length := by
  induction l with
  | nil => simp [tagEndAux] at h
  | cons c rest ih =>
    simp only [tagEndAux] at h
    split at h
    · simp only [Option.some.injEq] at h; subst h; simp
    · exact Nat.lt_trans (ih h) (by simp)

theorem tagEnd_length_lt {l r : List Char} (h : tagEnd l = some r) :
    r.length < l.length := by
  match l with
  | [] => simp [tagEnd] at h
  | c :: rest =>
    simp only [tagEnd] at h
    split at h
    · simp at h
    · exact Nat.lt_trans (tagEndAux_length_lt h) (by simp)


theorem parseInt_00 : parseInt "00".toList = some 0 := rfl

theorem parseInt_01 : parseInt "01".toList = some 1 := rfl

theorem parseFloat_01_000 : parseFloat "01.000".toList = some 1 := by
  rw [show parseFloat "01.000".toList =
      some (1 * ((digitsToNat ['0', '1'] : ℚ) +
        (digitsToNat ['0', '0', '0'] : ℚ) / (10 : ℚ) ^ 3) * pow10 (Int.ofNat 0)) from rfl]
  rw [show digitsToNat ['0', '1'] = 1 from rfl, show digitsToNat ['0', '0', '0'] = 0 from rfl]
  norm_num [pow10]

theorem parseFloat_02_000 : parseFloat "02.000".toList = some 2 := by
  rw [show parseFloat "02.000".toList =
      some (1 * ((digitsToNat ['0', '2'] : ℚ) +
        (digitsToNat ['0', '0', '0'] : ℚ) / (10 : ℚ) ^ 3) * pow10 (Int.ofNat 0)) from rfl]
  rw [show digitsToNat ['0', '2'] = 2 from rfl, show digitsToNat ['0', '0', '0'] = 0 from rfl]
  norm_num [pow10]

theorem parseFloat_03_000 : parseFloat "03.000".toList = some 3 := by
  rw [show parseFloat "03.000".toList =
      some (1 * ((digitsToNat ['0', '3'] : ℚ) +
        (digitsToNat ['0', '0', '0'] : ℚ) / (10 : ℚ) ^ 3) * pow10 (Int.ofNat 0)) from rfl]
  rw [show digitsToNat ['0', '3'] = 3 from rfl, show digitsToNat ['0', '0', '0'] = 0 from rfl]
  norm_num [pow10]

theorem parseFloat_05_000 : parseFloat "05.000".toList = some 5 := by
  rw [show parseFloat "05.000".toList =
      some (1 * ((digitsToNat ['0', '5'] : ℚ) +
        (digitsToNat ['0', '0', '0'] : ℚ) / (10 : ℚ) ^ 3) * pow10 (Int.ofNat 0)) from rfl]
  rw [show digitsToNat ['0', '5'] = 5 from rfl, show digitsToNat ['0', '0', '0'] = 0 from rfl]
  norm_num [pow10]

theorem parseFloat_02_500 : parseFloat "02.500".toList = some (5 / 2) := by
  rw [show parseFloat "02.500".toList =
      some (1 * ((digitsToNat ['0', '2'] : ℚ) +
        (digitsToNat ['5', '0', '0'] : ℚ) / (10 : ℚ) ^ 3) * pow10 (Int.ofNat 0)) from rfl]
  rw [show digitsToNat ['0', '2'] = 2 from rfl, show digitsToNat ['5', '0', '0'] = 500 from rfl]
  norm_num [pow10]

theorem parseTimecode_sec1 : parseTimecode "00:00:01,000".toList = some 1 := by
  rw [show parseTimecode "00:00:01,000".toList =
      (match parseFloat "01.000".toList, parseInt "00".toList, parseInt "00".toList with
        | some seconds, some minutes, some hours =>
          some ((hours : ℚ) * 3600 + (minutes : ℚ) * 60 + seconds)
        | _, _, _ => none) from rfl]
  rw [parseFloat_01_000, parseInt_00]
  norm_num

theorem parseTimecode_sec2 : parseTimecode "00:00:02,000".toList = some 2 := by
  rw [show parseTimecode "00:00:02,000".toList =
      (match parseFloat "02.000".toList, parseInt "00".toList, parseInt "00".toList with
        | some seconds, some minutes, some hours =>
          some ((hours : ℚ) * 3600 + (minutes : ℚ) * 60 + seconds)
        | _, _, _ => none) from rfl]
  rw [parseFloat_02_000, parseInt_00]
  norm_num

theorem parseTimecode_sec3 : parseTimecode "00:00:03,000".toList = some 3 := by
  rw [show parseTimecode "00:00:03,000".toList =
      (match parseFloat "03.000".toList, parseInt "00".toList, parseInt "00".toList with
        | some seconds, some minutes, some hours =>
          some ((hours : ℚ) * 3600 + (minutes : ℚ) * 60 + seconds)
        | _, _, _ => none) from rfl]
  rw [parseFloat_03_000, parseInt_00]
  norm_num

theorem parseTimecode_sec5 : parseTimecode "00:00:05,000".toList = some 5 := by
  rw [show parseTimecode "00:00:05,000".toList =
      (match parseFloat "05.000".toList, parseInt "00".toList, parseInt "00".toList with
        | some seconds, some minutes, some hours =>
          some ((hours : ℚ) * 3600 + (minutes : ℚ) * 60 + seconds)
        | _, _, _ => none) from rfl]
  rw [parseFloat_05_000, parseInt_00]
  norm_num

theorem parseTimecode_hours_dot : parseTimecode "00:01:02.500".toList = some (125 / 2) := by
  rw [show parseTimecode "00:01:02.500".toList =
      (match parseFloat "02.500".toList, parseInt "01".toList, parseInt "00".toList with
        | some seconds, some minutes, some hours =>
          some ((hours : ℚ) * 3600 + (minutes : ℚ) * 60 + seconds)
        | _, _, _ => none) from rfl]
  rw [parseFloat_02_500, parseInt_01, parseInt_00]
  norm_num

theorem parseTimecode_noHours_comma : parseTimecode "01:02,500".toList = some (125 / 2) := by
  rw [show parseTimecode "01:02,500".toList =
      (match parseFloat "02.500".toList, parseInt "01".toList, some (0 : ℤ) with
        | some seconds, some minutes, some hours =>
          some ((hours : ℚ) * 3600 + (minutes : ℚ) * 60 + seconds)
        | _, _, _ => none) from rfl]
  rw [parseFloat_02_500, parseInt_01]
  norm_num

/-- C9: both `"00:01:02.500"` (dot decimal separator, hour component
present) and `"01:02,500"` (comma decimal separator, no hour component)
parse to exactly the same value, 62.5 seconds. -/
theorem parseTimecode_formats :
    parseTimecode "00:01:02.500".toList = some (125 / 2) ∧
    parseTimecode "01:02,500".toList = some (125 / 2) ∧
    (125 : ℚ) / 2 = 62.5 :=
  ⟨parseTimecode_hours_dot, parseTimecode_noHours_comma, by norm_num⟩

theorem parseBlock_hello : parseBlock "00:00:01,000 --> 00:00:03,000\nHello".toList =
    some ⟨1, 3, "Hello".toList⟩ := by
  rw [show parseBlock "00:00:01,000 --> 00:00:03,000\nHello".toList =
      (match parseTimecode "00:00:01,000".toList, parseTimecode "00:00:03,000".toList with
        | some startSec, some endSec =>
          if endSec ≤ startSec then none
          else if ("Hello".toList).isEmpty then none
          else some ⟨startSec, endSec, "Hello".toList⟩
        | _, _ => none) from rfl]
  rw [parseTimecode_sec1, parseTimecode_sec3]
  norm_num

theorem parseBlock_bad : parseBlock "00:00:05,000 --> 00:00:02,000\nBad".toList = none := by
  rw [show parseBlock "00:00:05,000 --> 00:00:02,000\nBad".toList =
      (match parseTimecode "00:00:05,000".toList, parseTimecode "00:00:02,000".toList with
        | some startSec, some endSec =>
          if endSec ≤ startSec then none
          else if ("Bad".toList).isEmpty then none
          else some ⟨startSec, endSec, "Bad".toList⟩
        | _, _ => none) from rfl]
  rw [parseTimecode_sec5, parseTimecode_sec2]
  norm_num

theorem parseBlock_garbage : parseBlock "garbage --> 00:00:03,000\nOops".toList = none := rfl

theorem parseBlock_emptyText :
    parseBlock "00:00:01,000 --> 00:00:03,000\n<i></i>".toList = none := by
  rw [show parseBlock "00:00:01,000 --> 00:00:03,000\n<i></i>".toList =
      (match parseTimecode "00:00:01,000".toList, parseTimecode "00:00:03,000".toList with
        | some startSec, some endSec =>
          if endSec ≤ startSec then none
          else if ([] : List Char).isEmpty then none
          else some ⟨startSec, endSec, []⟩
        | _, _ => none) from rfl]
  rw [parseTimecode_sec1, parseTimecode_sec3]
  norm_num

theorem parseBlock_world : parseBlock "00:00:02,000 --> 00:00:05,000\nWorld".toList =
    some ⟨2, 5, "World".toList⟩ := by
  rw [show parseBlock "00:00:02,000 --> 00:00:05,000\nWorld".toList =
      (match parseTimecode "00:00:02,000".toList, parseTimecode "00:00:05,000".toList with
        | some startSec, some endSec =>
          if endSec ≤ startSec then none
          else if ("World".toList).isEmpty then none
          else some ⟨startSec, endSec, "World".toList⟩
        | _, _ => none) from rfl]
  rw [parseTimecode_sec2, parseTimecode_sec5]
  norm_num

theorem mem_insertByStart {s t : VideoTranscriptSegment} {l : List VideoTranscriptSegment} :
    t ∈ insertByStart s l ↔ t = s ∨ t ∈ l := by
  induction l with
  | nil => simp [insertByStart]
  | cons a as ih =>
    simp only [insertByStart]
    split
    · simp
    · simp only [List.mem_cons, ih]
      tauto

theorem mem_sortByStart {t : VideoTranscriptSegment} {l : List VideoTranscriptSegment}
    (h : t ∈ sortByStart l) : t ∈ l := by
  suffices haux : ∀ acc : List VideoTranscriptSegment,
      t ∈ l.foldl (fun acc s => insertByStart s acc) acc → t ∈ acc ∨ t ∈ l by
    rcases haux [] h with hacc | hl
    · simp at hacc
    · exact hl
  clear h
  induction l with
  | nil => intro acc hacc; exact Or.inl hacc
  | cons a as ih =>
    intro acc hacc
    rcases ih (insertByStart a acc) hacc with hin | hin
    · rcases mem_insertByStart.mp hin with rfl | hin2
      · exact Or.inr (by simp)
      · exact Or.inl hin2
    · exact Or.inr (by simp [hin])

theorem parseBlock_valid {block : List Char} {seg : VideoTranscriptSegment}
    (h : parseBlock block = some seg) : seg.startSec < seg.endSec ∧ seg.text ≠ [] := by
  unfold parseBlock at h
  split at h
  · simp at h
  · split at h
    · split at h
      · simp at h
      · split at h
        · simp at h
        · rename_i hle hempty
          simp only [Option.some.injEq] at h
          subst h
          exact ⟨not_le.mp hle, fun hnil => hempty (by simpa using hnil)⟩
    · simp at h

theorem parseSubtitle_mem_valid {content : List Char} {seg : VideoTranscriptSegment}
    (h : seg ∈ parseSubtitle content) : seg.startSec < seg.endSec ∧ seg.text ≠ [] := by
  unfold parseSubtitle at h
  have h2 := mem_sortByStart h
  revert h2
  generalize ((splitBlocks (stripWebVtt (replaceCrLf content))).map trimChars).filter
    (fun b => !b.isEmpty) = blocks
  suffices haux : ∀ acc : List VideoTranscriptSegment,
      (∀ s ∈ acc, s.startSec < s.endSec ∧ s.text ≠ []) →
      seg ∈ blocks.foldl
        (fun acc b => match parseBlock b with | none => acc | some s => acc ++ [s]) acc →
      seg.startSec < seg.endSec ∧ seg.text ≠ [] by
    intro h2
    exact haux [] (by simp) h2
  induction blocks with
  | nil => intro acc hacc h2; exact hacc seg h2
  | cons b bs ih =>
    intro acc hacc h2
    simp only [List.foldl_cons] at h2
    rcases hpb : parseBlock b with _ | s <;> rw [hpb] at h2
    · exact ih acc hacc h2
    · refine ih (acc ++ [s]) ?_ h2
      intro x hx
      rcases List.mem_append.mp hx with hx | hx
      · exact hacc x hx
      · simp only [List.mem_singleton] at hx
        subst hx
        exact parseBlock_valid hpb

/-- C7: `"00:00:01,000 --> 00:00:03,000\nHello"` parses to exactly one
segment `{1.0, 3.0, "Hello"}`; a block with `end <= start`, a block
whose timecode fails to parse, and a block whose text is empty after tag
stripping are each discarded without aborting the parsing of subsequent
blocks; and universally, every segment `parseSubtitle` emits has
`endSec > startSec` and non-empty text (so every discard condition is
honoured on all inputs). -/
theorem parseSubtitle_spec :
    parseSubtitle "00:00:01,000 --> 00:00:03,000\nHello".toList = [⟨1, 3, "Hello".toList⟩] ∧
    parseSubtitle
        "00:00:05,000 --> 00:00:02,000\nBad\n\n00:00:01,000 --> 00:00:03,000\nHello".toList =
      [⟨1, 3, "Hello".toList⟩] ∧
    parseSubtitle "garbage --> 00:00:03,000\nOops\n\n00:00:01,000 --> 00:00:03,000\nHello".toList =
      [⟨1, 3, "Hello".toList⟩] ∧
    parseSubtitle
        "00:00:01,000 --> 00:00:03,000\n<i></i>\n\n00:00:02,000 --> 00:00:05,000\nWorld".toList =
      [⟨2, 5, "World".toList⟩] ∧
    ∀ content : List Char,
      (parseSubtitle content).all
        (fun seg => decide (seg.startSec < seg.endSec) && !seg.text.isEmpty) = true := by
  refine ⟨?_, ?_, ?_, ?_, ?_⟩
  · rw [show parseSubtitle "00:00:01,000 --> 00:00:03,000\nHello".toList =
        sortByStart
          (match parseBlock "00:00:01,000 --> 00:00:03,000\nHello".toList with
            | none => ([] : List VideoTranscriptSegment)
            | some seg => [] ++ [seg]) from rfl]
    rw [parseBlock_hello]
    rfl
  · rw [show parseSubtitle
          "00:00:05,000 --> 00:00:02,000\nBad\n\n00:00:01,000 --> 00:00:03,000\nHello".toList =
        sortByStart
          (match (match parseBlock "00:00:05,000 --> 00:00:02,000\nBad".toList with
                   | none => ([] : List VideoTranscriptSegment)
                   | some seg => [] ++ [seg]) with
            | acc =>
              match parseBlock "00:00:01,000 --> 00:00:03,000\nHello".toList with
              | none => acc
              | some seg => acc ++ [seg]) from rfl]
    rw [parseBlock_bad, parseBlock_hello]
    rfl
  · rw [show parseSubtitle
          "garbage --> 00:00:03,000\nOops\n\n00:00:01,000 --> 00:00:03,000\nHello".toList =
        sortByStart
          (match (match parseBlock "garbage --> 00:00:03,000\nOops".toList with
                   | none => ([] : List VideoTranscriptSegment)
                   | some seg => [] ++ [seg]) with
            | acc =>
              match parseBlock "00:00:01,000 --> 00:00:03,000\nHello".toList with
              | none => acc
              | some seg => acc ++ [seg]) from rfl]
    rw [parseBlock_garbage, parseBlock_hello]
    rfl
  · rw [show parseSubtitle
          "00:00:01,000 --> 00:00:03,000\n<i></i>\n\n00:00:02,000 --> 00:00:05,000\nWorld".toList =
        sortByStart
          (match (match parseBlock "00:00:01,000 --> 00:00:03,000\n<i></i>".toList with
                   | none => ([] : List VideoTranscriptSegment)
                   | some seg => [] ++ [seg]) with
            | acc =>
              match parseBlock "00:00:02,000 --> 00:00:05,000\nWorld".toList with
              | none => acc
              | some seg => acc ++ [seg]) from rfl]
    rw [parseBlock_emptyText, parseBlock_world]
    rfl
  · intro content
    rw [List.all_eq_true]
    intro seg hseg
    obtain ⟨h1, h2⟩ := parseSubtitle_mem_valid hseg
    simp [h1, h2]

/-! ### C4: audio-extraction failure handling -/

/-- C4 (counterexample): the stale-file removal happens before the `try`
block, so a filesystem error raised there propagates out of
`extractAudio` instead of being swallowed, even though the tool run and
the stat would succeed. -/
theorem extractAudio_rm_counterexample :
    extractAudio
        { rmStale := Except.error "EACCES: permission denied"
          runFfmpeg := Except.ok ()
          statSize := Except.ok 0 } "audio.wav" =
      Except.error "EACCES: permission denied" ∧
    (extractAudio
        { rmStale := Except.error "EACCES: permission denied"
          runFfmpeg := Except.ok ()
          statSize := Except.ok 0 } "audio.wav").isOk = false :=
  ⟨rfl, rfl⟩

/-- C4 (amended): once the stale-file removal has succeeded, every
failure inside the `try` block — the extraction tool missing, the tool
exiting non-zero (both of which reject the `runCommand` promise), or a
filesystem error from `stat` — is caught, logged, and turned into "no
audio" (`Except.ok none`), so `extractAudio` resolves rather than
rejects. -/
theorem extractAudio_swallows_inside_try (env : AudioExtractionEnv) (audioPath : String)
    (hrm : env.rmStale = Except.ok ()) :
    (∃ r, extractAudio env audioPath = Except.ok r) ∧
    (∀ e, env.runFfmpeg = Except.error e → extractAudio env audioPath = Except.ok none) ∧
    (∀ e, env.statSize = Except.error e → extractAudio env audioPath = Except.ok none) := by
  refine ⟨?_, ?_, ?_⟩
  · simp only [extractAudio, hrm]
    rcases env.runFfmpeg with e | u
    · exact ⟨none, rfl⟩
    · rcases env.statSize with e | n
      · exact ⟨none, rfl⟩
      · exact ⟨_, rfl⟩
  · intro e he
    simp only [extractAudio, hrm, he]
  · intro e he
    simp only [extractAudio, hrm, he]
    rcases env.runFfmpeg with e2 | u
    · rfl
    · rfl

/-- Witness for `extractAudio_swallows_inside_try`: a missing `ffmpeg`
binary yields a successful result with no audio. -/
theorem extractAudio_swallows_inside_try_witness :
    extractAudio
        { rmStale := Except.ok ()
          runFfmpeg := Except.error "ffmpeg is not available in PATH"
          statSize := Except.ok 0 } "audio.wav" =
      Except.ok none :=
  (extractAudio_swallows_inside_try _ "audio.wav" rfl).2.1
    "ffmpeg is not available in PATH" rfl

/-! ### C3: non-zero exit classification in the process runner -/

/-- C3 (amended): on non-zero exit the runner rejects with a message that
carries the exit code and an excerpt of the trimmed selected stream
(stderr, or stdout when stderr is empty); the excerpt is a *head* —
the longest prefix of length at most 1200 — embedded in the message
(followed by `"..."` when truncation happened). -/
theorem runCommand_error_spec (command : List Char) (code : ℤ) (stdout stderr : List Char)
    (hcode : code ≠ 0) :
    ∃ msg excerpt,
      runCommandClose command code stdout stderr = Except.error msg ∧
      excerpt <+: trimChars (if stderr.isEmpty then stdout else stderr) ∧
      excerpt.length = min 1200 (trimChars (if stderr.isEmpty then stdout else stderr)).length ∧
      excerpt <:+: msg ∧
      (toString code).toList <:+: msg := by
  simp only [runCommandClose, if_neg hcode]
  set output := trimChars (if stderr.isEmpty then stdout else stderr) with houtput
  by_cases hlen : output.length > 1200
  · refine ⟨_, output.take 1200, rfl, ⟨output.drop 1200, List.take_append_drop _ _⟩, ?_, ?_, ?_⟩
    · simp only [List.length_take]
    · refine ⟨command ++ " exited with code ".toList ++ (toString code).toList ++ ": ".toList,
        "...".toList, ?_⟩
      simp only [truncateOutput, if_pos hlen, List.append_assoc]
    · refine ⟨command ++ " exited with code ".toList,
        ": ".toList ++ truncateOutput output, ?_⟩
      simp only [List.append_assoc]
  · refine ⟨_, output, rfl, ⟨[], List.append_nil _⟩, ?_, ?_, ?_⟩
    · omega
    · refine ⟨command ++ " exited with code ".toList ++ (toString code).toList ++ ": ".toList,
        [], ?_⟩
      simp only [truncateOutput, if_neg hlen, List.append_assoc, List.append_nil]
    · refine ⟨command ++ " exited with code ".toList,
        ": ".toList ++ truncateOutput output, ?_⟩
      simp only [List.append_assoc]

/-- Witness for `runCommand_error_spec` at exit code 1. -/
theorem runCommand_error_spec_witness :
    ∃ msg excerpt,
      runCommandClose "ffmpeg".toList 1 [] "boom".toList = Except.error msg ∧
      excerpt <+: trimChars (if ("boom".toList).isEmpty then [] else "boom".toList) ∧
      excerpt.length =
        min 1200 (trimChars (if ("boom".toList).isEmpty then [] else "boom".toList)).length ∧
      excerpt <:+: msg ∧
      (toString (1 : ℤ)).toList <:+: msg :=
  runCommand_error_spec "ffmpeg".toList 1 [] "boom".toList (by norm_num)

theorem dropWhile_replicate_b (n : ℕ) :
    (List.replicate n 'a' ++ ['b']).dropWhile jsWhitespace = List.replicate n 'a' ++ ['b'] := by
  cases n with
  | zero => rfl
  | succ m =>
    rw [List.replicate_succ, List.cons_append, List.dropWhile_cons, if_neg (by decide)]

theorem reverse_replicate_b (n : ℕ) :
    (List.replicate n 'a' ++ ['b']).reverse = 'b' :: List.replicate n 'a' := by
  rw [List.reverse_append, List.reverse_replicate]
  rfl

theorem trimChars_replicate_b (n : ℕ) :
    trimChars (List.replicate n 'a' ++ ['b']) = List.replicate n 'a' ++ ['b'] := by
  rw [trimChars, dropWhile_replicate_b, reverse_replicate_b, List.dropWhile_cons,
    if_neg (by decide), List.reverse_cons, List.reverse_replicate]

theorem isEmpty_replicate_b (n : ℕ) :
    (List.replicate (n + 1) 'a' ++ ['b']).isEmpty = false := by
  rw [List.replicate_succ]
  rfl

theorem length_replicate_b (n : ℕ) : (List.replicate n 'a' ++ ['b']).length = n + 1 := by
  simp

theorem drop_one_replicate_b (n : ℕ) :
    (List.replicate (n + 1) 'a' ++ ['b']).drop 1 = List.replicate n 'a' ++ ['b'] := by
  rw [List.replicate_succ]
  rfl

theorem take_replicate_b (n : ℕ) :
    (List.replicate n 'a' ++ ['b']).take n = List.replicate n 'a' :=
  List.take_left' (List.length_replicate n 'a')

/-- C3 (counterexample): with stderr of 1201 characters whose final
character is `'b'`, the rejected message retains the *first* 1200
characters of stderr plus an ellipsis: it contains no `'b'`, so no
non-trivial tail of stderr is embedded in it, and the text after the
fixed message prefix exceeds 1200 characters. -/
theorem runCommand_tail_counterexample :
    runCommandClose "ffmpeg".toList 1 [] (List.replicate 1200 'a' ++ ['b']) =
      Except.error
        ("ffmpeg exited with code 1: ".toList ++ List.replicate 1200 'a' ++ "...".toList) ∧
    ¬ ((trimChars (List.replicate 1200 'a' ++ ['b'])).drop 1 <:+:
        ("ffmpeg exited with code 1: ".toList ++ List.replicate 1200 'a' ++ "...".toList)) ∧
    ("ffmpeg exited with code 1: ".toList).length + 1200 <
      ("ffmpeg exited with code 1: ".toList ++ List.replicate 1200 'a' ++ "...".toList).length := by
  have h1 : ∀ x ∈ "ffmpeg exited with code 1: ".toList, x ≠ 'b' := by decide
  have h2 : ∀ x ∈ "...".toList, x ≠ 'b' := by decide
  have e1 : (List.replicate 1200 'a' ++ ['b'] : List Char).isEmpty = false :=
    isEmpty_replicate_b 1199
  have e3 : truncateOutput (List.replicate 1200 'a' ++ ['b']) =
      List.replicate 1200 'a' ++ "...".toList := by
    rw [truncateOutput, if_pos (by rw [length_replicate_b]; norm_num)]
    rw [take_replicate_b]
  refine ⟨?_, ?_, ?_⟩
  · rw [runCommandClose, if_neg (show ¬(1 : ℤ) = 0 by norm_num), e1]
    simp only [Bool.false_eq_true, if_false]
    rw [trimChars_replicate_b, e3]
    rw [show ("ffmpeg".toList ++ " exited with code ".toList ++ (toString (1 : ℤ)).toList ++
        ": ".toList : List Char) = "ffmpeg exited with code 1: ".toList from by decide]
    simp only [List.append_assoc]
  · intro hinf
    have hb : 'b' ∈ (trimChars (List.replicate 1200 'a' ++ ['b'])).drop 1 := by
      rw [trimChars_replicate_b]
      rw [show ((List.replicate 1200 'a' ++ ['b'] : List Char)).drop 1 =
        List.replicate 1199 'a' ++ ['b'] from drop_one_replicate_b 1199]
      exact List.mem_append_right _ (by simp)
    have hmsg := hinf.subset hb
    rcases List.mem_append.mp hmsg with hx | hx
    · rcases List.mem_append.mp hx with hy | hy
      · exact h1 'b' hy rfl
      · exact absurd (List.eq_of_mem_replicate hy) (by decide)
    · exact h2 'b' hx rfl
  · rw [List.length_append, List.length_append, List.length_replicate]
    rw [show ("...".toList : List Char).length = 3 from by decide]
    omega

/-! ### C2: cache lookup equivalence -/

theorem loadCachedResult_eq_some_iff (fs : CacheFs) (p : String)
    (opts : RequiredVideoIngestOptions) (r : VideoIngestResult) :
    loadCachedResult fs p opts = some r ↔
      fs.fileExists p = true ∧
      ∃ m, fs.readManifest p = Except.ok m ∧ m.version = CACHE_VERSION ∧
        isSameOptions m.options opts = true ∧ isResultFilesReady fs m.result = true ∧
        r = m.result := by
  rw [loadCachedResult]
  cases hex : fs.fileExists p with
  | false => simp
  | true =>
    simp only [Bool.not_true, Bool.false_eq_true, if_false, true_and]
    cases hread : fs.readManifest p with
    | error e => simp
    | ok m =>
      simp only [Except.ok.injEq, exists_eq_left']
      split_ifs with h1 h2 h3
      · simp [h1]
      · rw [Bool.not_eq_true'] at h2
        simp [h2]
      · rw [Bool.not_eq_true'] at h3
        simp [h3]
      · have hsame : isSameOptions m.options opts = true := by
          revert h2; cases isSameOptions m.options opts <;> simp
        have hready : isResultFilesReady fs m.result = true := by
          revert h3; cases isResultFilesReady fs m.result <;> simp
        simp only [Option.some.injEq]
        constructor
        · intro h
          exact ⟨not_not.mp h1, hsame, hready, h.symm⟩
        · rintro ⟨-, -, -, hr⟩
          exact hr.symm

theorem isSameOptions_iff (a b : RequiredVideoIngestOptions) :
    isSameOptions a b = true ↔
      a.frameIntervalSec = b.frameIntervalSec ∧ a.maxFrames = b.maxFrames ∧
      a.segmentDurationSec = b.segmentDurationSec ∧
      a.maxAudioDurationSec = b.maxAudioDurationSec := by
  simp [isSameOptions]

theorem isResultFilesReady_iff (fs : CacheFs) (result : VideoIngestResult) :
    isResultFilesReady fs result = true ↔
      result.frames.all (fun frame => fs.fileExists frame.path) = true ∧
      Option.all (fun audio => fs.fileExists audio.path) result.audio = true ∧
      Option.all (fun t => fs.fileExists t.path) result.transcript = true := by
  rw [isResultFilesReady]
  rcases result.audio with _ | audio <;> rcases result.transcript with _ | t <;>
    simp [Option.all, and_assoc]

/-- C2: `loadCachedResult` returns a hit if and only if the manifest
exists, reads and parses, carries the current schema version, stores
options equal to the requested ones in all four fields, and every file
path referenced by the stored result is still on disk; moreover any
read/parse exception yields a miss rather than a propagated error, a
mismatch in any single option field forces a miss, and a single deleted
referenced frame file forces a miss. -/
theorem loadCachedResult_spec (fs : CacheFs) (manifestPath : String)
    (options : RequiredVideoIngestOptions) :
    (∀ result, loadCachedResult fs manifestPath options = some result ↔
      fs.fileExists manifestPath = true ∧
      ∃ m, fs.readManifest manifestPath = Except.ok m ∧
        result = m.result ∧
        m.version = CACHE_VERSION ∧
        m.options.frameIntervalSec = options.frameIntervalSec ∧
        m.options.maxFrames = options.maxFrames ∧
        m.options.segmentDurationSec = options.segmentDurationSec ∧
        m.options.maxAudioDurationSec = options.maxAudioDurationSec ∧
        m.result.frames.all (fun frame => fs.fileExists frame.path) = true ∧
        Option.all (fun audio => fs.fileExists audio.path) m.result.audio = true ∧
        Option.all (fun t => fs.fileExists t.path) m.result.transcript = true) ∧
    (∀ e, fs.readManifest manifestPath = Except.error e →
      loadCachedResult fs manifestPath options = none) ∧
    (∀ m, fs.readManifest manifestPath = Except.ok m →
      (m.options.frameIntervalSec ≠ options.frameIntervalSec ∨
       m.options.maxFrames ≠ options.maxFrames ∨
       m.options.segmentDurationSec ≠ options.segmentDurationSec ∨
       m.options.maxAudioDurationSec ≠ options.maxAudioDurationSec) →
      loadCachedResult fs manifestPath options = none) ∧
    (∀ m frame, fs.readManifest manifestPath = Except.ok m →
      frame ∈ m.result.frames → fs.fileExists frame.path = false →
      loadCachedResult fs manifestPath options = none) := by
  have hnone :
      (∀ r, loadCachedResult fs manifestPath options = some r → False) →
      loadCachedResult fs manifestPath options = none := by
    intro h
    rcases hload : loadCachedResult fs manifestPath options with _ | r
    · rfl
    · exact absurd hload (fun hl => h r hl)
  refine ⟨?_, ?_, ?_, ?_⟩
  · intro result
    rw [loadCachedResult_eq_some_iff]
    constructor
    · rintro ⟨hex, m, hm, hv, hopt, hready, hr⟩
      obtain ⟨o1, o2, o3, o4⟩ := (isSameOptions_iff _ _).mp hopt
      obtain ⟨r1, r2, r3⟩ := (isResultFilesReady_iff _ _).mp hready
      exact ⟨hex, m, hm, hr, hv, o1, o2, o3, o4, r1, r2, r3⟩
    · rintro ⟨hex, m, hm, hr, hv, o1, o2, o3, o4, r1, r2, r3⟩
      exact ⟨hex, m, hm, hv, (isSameOptions_iff _ _).mpr ⟨o1, o2, o3, o4⟩,
        (isResultFilesReady_iff _ _).mpr ⟨r1, r2, r3⟩, hr⟩
  · intro e he
    refine hnone ?_
    intro r hl
    obtain ⟨-, m, hm, -⟩ := (loadCachedResult_eq_some_iff _ _ _ _).mp hl
    rw [he] at hm
    exact absurd hm (by simp)
  · intro m hm hne
    refine hnone ?_
    intro r hl
    obtain ⟨-, m2, hm2, -, hopt, -⟩ := (loadCachedResult_eq_some_iff _ _ _ _).mp hl
    rw [hm] at hm2
    injection hm2 with hm2
    subst hm2
    obtain ⟨o1, o2, o3, o4⟩ := (isSameOptions_iff _ _).mp hopt
    rcases hne with hne | hne | hne | hne
    · exact hne o1
    · exact hne o2
    · exact hne o3
    · exact hne o4
  · intro m frame hm hmem hnotex
    refine hnone ?_
    intro r hl
    obtain ⟨-, m2, hm2, -, -, hready, -⟩ := (loadCachedResult_eq_some_iff _ _ _ _).mp hl
    rw [hm] at hm2
    injection hm2 with hm2
    subst hm2
    obtain ⟨r1, -, -⟩ := (isResultFilesReady_iff _ _).mp hready
    rw [List.all_eq_true] at r1
    rw [r1 frame hmem] at hnotex
    exact absurd hnotex (by simp)

/-- Witness for `loadCachedResult_spec`: a manifest whose read/parse
throws is a miss. -/
theorem loadCachedResult_spec_witness :
    loadCachedResult
      { fileExists := fun _ => true
        readManifest := fun _ => Except.error "Unexpected token in JSON" }
      "manifest.json" DEFAULT_INGEST_OPTIONS = none :=
  (loadCachedResult_spec _ "manifest.json" DEFAULT_INGEST_OPTIONS).2.1
    "Unexpected token in JSON" rfl

/-! ### C6: option normalization -/

/-- C6: after `normalizeOptions` all four fields are present and satisfy
`frameIntervalSec > 0`, `maxFrames ≥ 0`, `segmentDurationSec > 0`,
`maxAudioDurationSec > 0`; every missing, non-finite (`NaN`/`±Infinity`)
or out-of-range caller value is replaced by the corresponding default,
valid values are kept (`maxFrames` floored); and a normalized
`maxFrames` of `0` makes `extractFrames` return `[]` without invoking
any effect. -/
theorem normalizeOptions_spec (options : Option VideoIngestOptions) :
    (0 < (normalizeOptions options).frameIntervalSec ∧
     0 ≤ (normalizeOptions options).maxFrames ∧
     0 < (normalizeOptions options).segmentDurationSec ∧
     0 < (normalizeOptions options).maxAudioDurationSec) ∧
    ((options.getD ⟨none, none, none, none⟩).frameIntervalSec = none →
      (normalizeOptions options).frameIntervalSec = DEFAULT_INGEST_OPTIONS.frameIntervalSec) ∧
    (∀ j, (options.getD ⟨none, none, none, none⟩).frameIntervalSec = some j →
      (∀ q : ℚ, j ≠ JsNum.num q) →
      (normalizeOptions options).frameIntervalSec = DEFAULT_INGEST_OPTIONS.frameIntervalSec) ∧
    (∀ q : ℚ, (options.getD ⟨none, none, none, none⟩).frameIntervalSec = some (JsNum.num q) →
      ¬ (0 < q) →
      (normalizeOptions options).frameIntervalSec = DEFAULT_INGEST_OPTIONS.frameIntervalSec) ∧
    (∀ q : ℚ, (options.getD ⟨none, none, none, none⟩).frameIntervalSec = some (JsNum.num q) →
      0 < q → (normalizeOptions options).frameIntervalSec = q) ∧
    ((options.getD ⟨none, none, none, none⟩).maxFrames = none →
      (normalizeOptions options).maxFrames = DEFAULT_INGEST_OPTIONS.maxFrames) ∧
    (∀ j, (options.getD ⟨none, none, none, none⟩).maxFrames = some j →
      (∀ q : ℚ, j ≠ JsNum.num q) →
      (normalizeOptions options).maxFrames = DEFAULT_INGEST_OPTIONS.maxFrames) ∧
    (∀ q : ℚ, (options.getD ⟨none, none, none, none⟩).maxFrames = some (JsNum.num q) →
      ¬ (0 ≤ q) →
      (normalizeOptions options).maxFrames = DEFAULT_INGEST_OPTIONS.maxFrames) ∧
    (∀ q : ℚ, (options.getD ⟨none, none, none, none⟩).maxFrames = some (JsNum.num q) →
      0 ≤ q → (normalizeOptions options).maxFrames = ⌊q⌋) ∧
    ((options.getD ⟨none, none, none, none⟩).segmentDurationSec = none →
      (normalizeOptions options).segmentDurationSec = DEFAULT_INGEST_OPTIONS.segmentDurationSec) ∧
    (∀ j, (options.getD ⟨none, none, none, none⟩).segmentDurationSec = some j →
      (∀ q : ℚ, j ≠ JsNum.num q) →
      (normalizeOptions options).segmentDurationSec = DEFAULT_INGEST_OPTIONS.segmentDurationSec) ∧
    (∀ q : ℚ, (options.getD ⟨none, none, none, none⟩).segmentDurationSec = some (JsNum.num q) →
      ¬ (0 < q) →
      (normalizeOptions options).segmentDurationSec = DEFAULT_INGEST_OPTIONS.segmentDurationSec) ∧
    (∀ q : ℚ, (options.getD ⟨none, none, none, none⟩).segmentDurationSec = some (JsNum.num q) →
      0 < q → (normalizeOptions options).segmentDurationSec = q) ∧
    ((options.getD ⟨none, none, none, none⟩).maxAudioDurationSec = none →
      (normalizeOptions options).maxAudioDurationSec = DEFAULT_INGEST_OPTIONS.maxAudioDurationSec) ∧
    (∀ j, (options.getD ⟨none, none, none, none⟩).maxAudioDurationSec = some j →
      (∀ q : ℚ, j ≠ JsNum.num q) →
      (normalizeOptions options).maxAudioDurationSec = DEFAULT_INGEST_OPTIONS.maxAudioDurationSec) ∧
    (∀ q : ℚ, (options.getD ⟨none, none, none, none⟩).maxAudioDurationSec = some (JsNum.num q) →
      ¬ (0 < q) →
      (normalizeOptions options).maxAudioDurationSec = DEFAULT_INGEST_OPTIONS.maxAudioDurationSec) ∧
    (∀ q : ℚ, (options.getD ⟨none, none, none, none⟩).maxAudioDurationSec = some (JsNum.num q) →
      0 < q → (normalizeOptions options).maxAudioDurationSec = q) ∧
    (∀ (env : FrameExtractionEnv) (framesDir : String),
      (normalizeOptions options).maxFrames = 0 →
      extractFrames env framesDir (normalizeOptions options) = Except.ok []) := by
  rcases options with _ | ⟨fi, mf, sd, ad⟩
  · refine ⟨⟨?_, ?_, ?_, ?_⟩, ?_⟩
    · norm_num [normalizeOptions, DEFAULT_INGEST_OPTIONS]
    · norm_num [normalizeOptions, DEFAULT_INGEST_OPTIONS]
    · norm_num [normalizeOptions, DEFAULT_INGEST_OPTIONS]
    · norm_num [normalizeOptions, DEFAULT_INGEST_OPTIONS]
    refine ⟨?_, ?_, ?_, ?_, ?_, ?_, ?_, ?_, ?_, ?_, ?_, ?_, ?_, ?_, ?_, ?_, ?_⟩
    · intro h
      norm_num [normalizeOptions]
    · intro j hj
      simp at hj
    · intro q hq
      simp at hq
    · intro q hq
      simp at hq
    · intro h
      norm_num [normalizeOptions]
    · intro j hj
      simp at hj
    · intro q hq
      simp at hq
    · intro q hq
      simp at hq
    · intro h
      norm_num [normalizeOptions]
    · intro j hj
      simp at hj
    · intro q hq
      simp at hq
    · intro q hq
      simp at hq
    · intro h
      norm_num [normalizeOptions]
    · intro j hj
      simp at hj
    · intro q hq
      simp at hq
    · intro q hq
      simp at hq
    · intro env framesDir h
      rw [extractFrames, if_pos (by rw [h])]
  · refine ⟨⟨?_, ?_, ?_, ?_⟩, ?_⟩
    · rcases fi with _ | j
      · norm_num [normalizeOptions, DEFAULT_INGEST_OPTIONS]
      · cases j with
        | num q =>
          by_cases hq : 0 < q
          · simp only [normalizeOptions, Option.getD_some, if_pos hq]
            exact hq
          · simp [normalizeOptions, hq, DEFAULT_INGEST_OPTIONS]
        | nan => norm_num [normalizeOptions, DEFAULT_INGEST_OPTIONS]
        | inf => norm_num [normalizeOptions, DEFAULT_INGEST_OPTIONS]
        | negInf => norm_num [normalizeOptions, DEFAULT_INGEST_OPTIONS]
    · rcases mf with _ | j
      · norm_num [normalizeOptions, DEFAULT_INGEST_OPTIONS]
      · cases j with
        | num q =>
          by_cases hq : 0 ≤ q
          · simp only [normalizeOptions, Option.getD_some, if_pos hq]
            exact Int.floor_nonneg.mpr hq
          · simp [normalizeOptions, hq, DEFAULT_INGEST_OPTIONS]
        | nan => norm_num [normalizeOptions, DEFAULT_INGEST_OPTIONS]
        | inf => norm_num [normalizeOptions, DEFAULT_INGEST_OPTIONS]
        | negInf => norm_num [normalizeOptions, DEFAULT_INGEST_OPTIONS]
    · rcases sd with _ | j
      · norm_num [normalizeOptions, DEFAULT_INGEST_OPTIONS]
      · cases j with
        | num q =>
          by_cases hq : 0 < q
          · simp only [normalizeOptions, Option.getD_some, if_pos hq]
            exact hq
          · simp [normalizeOptions, hq, DEFAULT_INGEST_OPTIONS]
        | nan => norm_num [normalizeOptions, DEFAULT_INGEST_OPTIONS]
        | inf => norm_num [normalizeOptions, DEFAULT_INGEST_OPTIONS]
        | negInf => norm_num [normalizeOptions, DEFAULT_INGEST_OPTIONS]
    · rcases ad with _ | j
      · norm_num [normalizeOptions, DEFAULT_INGEST_OPTIONS]
      · cases j with
        | num q =>
          by_cases hq : 0 < q
          · simp only [normalizeOptions, Option.getD_some, if_pos hq]
            exact hq
          · simp [normalizeOptions, hq, DEFAULT_INGEST_OPTIONS]
        | nan => norm_num [normalizeOptions, DEFAULT_INGEST_OPTIONS]
        | inf => norm_num [normalizeOptions, DEFAULT_INGEST_OPTIONS]
        | negInf => norm_num [normalizeOptions, DEFAULT_INGEST_OPTIONS]
    refine ⟨?_, ?_, ?_, ?_, ?_, ?_, ?_, ?_, ?_, ?_, ?_, ?_, ?_, ?_, ?_, ?_, ?_⟩
    · intro h
      simp only [Option.getD_some] at h
      subst h
      norm_num [normalizeOptions, DEFAULT_INGEST_OPTIONS]
    · intro j hj hnn
      simp only [Option.getD_some] at hj
      subst hj
      cases j with
      | num q => exact absurd rfl (hnn q)
      | nan => simp [normalizeOptions, DEFAULT_INGEST_OPTIONS]
      | inf => simp [normalizeOptions, DEFAULT_INGEST_OPTIONS]
      | negInf => simp [normalizeOptions, DEFAULT_INGEST_OPTIONS]
    · intro q hq hneg
      simp only [Option.getD_some] at hq
      subst hq
      simp [normalizeOptions, hneg, DEFAULT_INGEST_OPTIONS]
    · intro q hq hguard
      simp only [Option.getD_some] at hq
      subst hq
      simp only [normalizeOptions, Option.getD_some, if_pos hguard]
    · intro h
      simp only [Option.getD_some] at h
      subst h
      norm_num [normalizeOptions, DEFAULT_INGEST_OPTIONS]
    · intro j hj hnn
      simp only [Option.getD_some] at hj
      subst hj
      cases j with
      | num q => exact absurd rfl (hnn q)
      | nan => simp [normalizeOptions, DEFAULT_INGEST_OPTIONS]
      | inf => simp [normalizeOptions, DEFAULT_INGEST_OPTIONS]
      | negInf => simp [normalizeOptions, DEFAULT_INGEST_OPTIONS]
    · intro q hq hneg
      simp only [Option.getD_some] at hq
      subst hq
      simp [normalizeOptions, hneg, DEFAULT_INGEST_OPTIONS]
    · intro q hq hguard
      simp only [Option.getD_some] at hq
      subst hq
      simp only [normalizeOptions, Option.getD_some, if_pos hguard]
    · intro h
      simp only [Option.getD_some] at h
      subst h
      norm_num [normalizeOptions, DEFAULT_INGEST_OPTIONS]
    · intro j hj hnn
      simp only [Option.getD_some] at hj
      subst hj
      cases j with
      | num q => exact absurd rfl (hnn q)
      | nan => simp [normalizeOptions, DEFAULT_INGEST_OPTIONS]
      | inf => simp [normalizeOptions, DEFAULT_INGEST_OPTIONS]
      | negInf => simp [normalizeOptions, DEFAULT_INGEST_OPTIONS]
    · intro q hq hneg
      simp only [Option.getD_some] at hq
      subst hq
      simp [normalizeOptions, hneg, DEFAULT_INGEST_OPTIONS]
    · intro q hq hguard
      simp only [Option.getD_some] at hq
      subst hq
      simp only [normalizeOptions, Option.getD_some, if_pos hguard]
    · intro h
      simp only [Option.getD_some] at h
      subst h
      norm_num [normalizeOptions, DEFAULT_INGEST_OPTIONS]
    · intro j hj hnn
      simp only [Option.getD_some] at hj
      subst hj
      cases j with
      | num q => exact absurd rfl (hnn q)
      | nan => simp [normalizeOptions, DEFAULT_INGEST_OPTIONS]
      | inf => simp [normalizeOptions, DEFAULT_INGEST_OPTIONS]
      | negInf => simp [normalizeOptions, DEFAULT_INGEST_OPTIONS]
    · intro q hq hneg
      simp only [Option.getD_some] at hq
      subst hq
      simp [normalizeOptions, hneg, DEFAULT_INGEST_OPTIONS]
    · intro q hq hguard
      simp only [Option.getD_some] at hq
      subst hq
      simp only [normalizeOptions, Option.getD_some, if_pos hguard]
    · intro env framesDir h
      rw [extractFrames, if_pos (by rw [h])]

/-- Witness for `normalizeOptions_spec`: a `NaN` frame interval falls
back to the default. -/
theorem normalizeOptions_spec_witness :
    (normalizeOptions
      (some ⟨some JsNum.nan, some (JsNum.num (-3)), none, some (JsNum.num 5)⟩)).frameIntervalSec =
      DEFAULT_INGEST_OPTIONS.frameIntervalSec :=
  (normalizeOptions_spec _).2.2.1 JsNum.nan rfl (fun _ h => JsNum.noConfusion h)

/-! ### Structural lemmas for the segment builder -/

theorem length_modifyAt (l : List α) (n : ℕ) (f : α → α) :
    (modifyAt l n f).length = l.length := by
  induction l generalizing n with
  | nil => rfl
  | cons a as ih =>
    cases n with
    | zero => rfl
    | succ m => simp [modifyAt, ih]

theorem get_modifyAt (l : List α) (n : ℕ) (f : α → α) (i : ℕ)
    (h : i < (modifyAt l n f).length) (h' : i < l.length) :
    (modifyAt l n f).get ⟨i, h⟩ = if n = i then f (l.get ⟨i, h'⟩) else l.get ⟨i, h'⟩ := by
  induction l generalizing n i with
  | nil => simp at h'
  | cons a as ih =>
    cases n with
    | zero =>
      cases i with
      | zero => simp [modifyAt]
      | succ j => simp [modifyAt]
    | succ m =>
      cases i with
      | zero => simp [modifyAt]
      | succ j =>
        simp only [modifyAt, List.get_cons_succ]
        rw [ih]
        by_cases hmj : m = j
        · rw [if_pos hmj, if_pos (by omega)]
        · rw [if_neg hmj, if_neg (by omega)]

theorem map_proj_modifyAt {β : Type} (proj : α → β) (g : α → α)
    (hg : ∀ a, proj (g a) = proj a) (l : List α) (n : ℕ) :
    (modifyAt l n g).map proj = l.map proj := by
  induction l generalizing n with
  | nil => rfl
  | cons a as ih =>
    cases n with
    | zero => simp [modifyAt, hg]
    | succ m => simp [modifyAt, ih]

theorem map_proj_assignFrames {β : Type} (proj : VideoIngestSegment → β)
    (hproj : ∀ idx st en fp fp2 rep tr,
      proj ⟨idx, st, en, fp, rep, tr⟩ = proj ⟨idx, st, en, fp2, rep, tr⟩)
    (frames : List VideoIngestFrame) (segs : List VideoIngestSegment)
    (d : ℚ) (count : ℕ) :
    (assignFrames segs frames d count).map proj = segs.map proj := by
  induction frames generalizing segs with
  | nil => rfl
  | cons f fs ih =>
    rw [assignFrames, List.foldl_cons]
    rw [show List.foldl _ _ fs = assignFrames
      (modifyAt segs (frameBucket f.timestampSec d count)
        (fun seg => { seg with framePaths := seg.framePaths ++ [f.path] })) fs d count from rfl]
    rw [ih, map_proj_modifyAt proj _
      (fun a => hproj a.index a.startSec a.endSec (a.framePaths ++ [f.path]) a.framePaths
        a.representativeFramePath a.transcript)]

theorem map_proj_setRepresentatives {β : Type} (proj : VideoIngestSegment → β)
    (hproj : ∀ idx st en fp rep rep2 tr,
      proj ⟨idx, st, en, fp, rep, tr⟩ = proj ⟨idx, st, en, fp, rep2, tr⟩)
    (l : List VideoIngestSegment) :
    (setRepresentatives l).map proj = l.map proj := by
  induction l with
  | nil => rfl
  | cons seg segs ih =>
    rw [setRepresentatives, List.map_cons, List.map_cons, List.map_cons]
    rw [show List.map _ segs = setRepresentatives segs from rfl]
    rw [ih]
    congr 1
    rcases hfp : seg.framePaths with _ | ⟨p, ps⟩
    · rfl
    · calc proj ⟨seg.index, seg.startSec, seg.endSec, p :: ps, some p, seg.transcript⟩
          = proj ⟨seg.index, seg.startSec, seg.endSec, p :: ps,
              seg.representativeFramePath, seg.transcript⟩ :=
            hproj seg.index seg.startSec seg.endSec (p :: ps) (some p)
              seg.representativeFramePath seg.transcript
        _ = proj seg := by rw [← hfp]

theorem map_proj_applyTranscripts {β : Type} (proj : VideoIngestSegment → β)
    (hproj : ∀ idx st en fp rep tr tr2,
      proj ⟨idx, st, en, fp, rep, tr⟩ = proj ⟨idx, st, en, fp, rep, tr2⟩)
    (ts : List VideoTranscriptSegment) (l : List VideoIngestSegment) :
    (applyTranscripts l ts).map proj = l.map proj := by
  induction ts generalizing l with
  | nil => rfl
  | cons t ts2 ih =>
    rw [applyTranscripts, List.foldl_cons]
    rw [show List.foldl _ _ ts2 = applyTranscripts
      (l.map fun seg =>
        if t.startSec < seg.endSec ∧ t.endSec > seg.startSec then
          { seg with transcript := some (mergeTranscriptText seg.transcript t.text) }
        else seg) ts2 from rfl]
    rw [ih, List.map_map]
    apply List.map_congr_left
    intro seg _
    simp only [Function.comp_apply]
    split
    · exact hproj seg.index seg.startSec seg.endSec seg.framePaths seg.representativeFramePath
        (some (mergeTranscriptText seg.transcript t.text)) seg.transcript
    · rfl


theorem buildSegmentsAll_map_segShape (frames : List VideoIngestFrame)
    (ts : List VideoTranscriptSegment) (durationSec d : ℚ) :
    (buildSegmentsAll frames ts durationSec d).map segShape =
      (List.range (segmentCount frames ts durationSec d)).map
        (fun i => ((i, (i : ℚ) * d,
          min (((i : ℚ) + 1) * d) (effectiveDuration frames ts durationSec d)) : ℕ × ℚ × ℚ)) := by
  simp only [buildSegmentsAll]
  rw [map_proj_applyTranscripts segShape (fun idx st en fp rep tr tr2 => rfl)]
  rw [map_proj_setRepresentatives segShape (fun idx st en fp rep rep2 tr => rfl)]
  rw [map_proj_assignFrames segShape (fun idx st en fp fp2 rep tr => rfl)]
  rw [initSegments, List.map_map]
  rfl

theorem buildSegmentsAll_length (frames : List VideoIngestFrame)
    (ts : List VideoTranscriptSegment) (durationSec d : ℚ) :
    (buildSegmentsAll frames ts durationSec d).length =
      segmentCount frames ts durationSec d := by
  have h := congrArg List.length (buildSegmentsAll_map_segShape frames ts durationSec d)
  simpa using h

theorem segmentCount_pos (frames : List VideoIngestFrame)
    (ts : List VideoTranscriptSegment) (durationSec d : ℚ) :
    1 ≤ segmentCount frames ts durationSec d := by
  rw [segmentCount]
  have h : (1 : ℤ) ≤ max 1 ⌈effectiveDuration frames ts durationSec d / d⌉ := le_max_left _ _
  omega

theorem buildSegmentsAll_get_segShape (frames : List VideoIngestFrame)
    (ts : List VideoTranscriptSegment) (durationSec d : ℚ) (i : ℕ)
    (h : i < (buildSegmentsAll frames ts durationSec d).length) :
    segShape ((buildSegmentsAll frames ts durationSec d).get ⟨i, h⟩) =
      ((i, (i : ℚ) * d,
        min (((i : ℚ) + 1) * d) (effectiveDuration frames ts durationSec d)) : ℕ × ℚ × ℚ) := by
  have hm := buildSegmentsAll_map_segShape frames ts durationSec d
  have hlen := buildSegmentsAll_length frames ts durationSec d
  have hget := congrArg (fun l => l.get? i) hm
  simp only [List.get?_map] at hget
  rw [List.get?_eq_get h, List.get?_eq_get (by simpa [hlen] using h)] at hget
  simp only [Option.map_some] at hget
  injection hget with hget
  rw [hget, List.get_range]

theorem le_effectiveDuration_self (frames : List VideoIngestFrame)
    (ts : List VideoTranscriptSegment) (durationSec d : ℚ) :
    d ≤ effectiveDuration frames ts durationSec d := by
  rw [effectiveDuration]
  exact le_max_right _ _

theorem segmentCount_cast (frames : List VideoIngestFrame)
    (ts : List VideoTranscriptSegment) (durationSec d : ℚ) (hd : 0 < d) :
    (segmentCount frames ts durationSec d : ℤ) =
      ⌈effectiveDuration frames ts durationSec d / d⌉ := by
  have heff : 0 < effectiveDuration frames ts durationSec d :=
    lt_of_lt_of_le hd (le_effectiveDuration_self frames ts durationSec d)
  have hceil : (0 : ℤ) < ⌈effectiveDuration frames ts durationSec d / d⌉ := by
    rw [Int.lt_ceil]
    push_cast
    exact div_pos heff hd
  rw [segmentCount, max_eq_right (by omega), Int.toNat_of_nonneg (by omega)]

theorem eff_le_count_mul (frames : List VideoIngestFrame)
    (ts : List VideoTranscriptSegment) (durationSec d : ℚ) (hd : 0 < d) :
    effectiveDuration frames ts durationSec d ≤
      (segmentCount frames ts durationSec d : ℚ) * d := by
  have h := Int.le_ceil (effectiveDuration frames ts durationSec d / d)
  rw [div_le_iff hd] at h
  calc effectiveDuration frames ts durationSec d
      ≤ (⌈effectiveDuration frames ts durationSec d / d⌉ : ℚ) * d := h
    _ = (segmentCount frames ts durationSec d : ℚ) * d := by
        rw [← segmentCount_cast frames ts durationSec d hd]
        push_cast
        rfl

theorem lt_eff_of_lt_count (frames : List VideoIngestFrame)
    (ts : List VideoTranscriptSegment) (durationSec d : ℚ) (hd : 0 < d)
    {i : ℕ} (hi : i < segmentCount frames ts durationSec d) :
    (i : ℚ) * d < effectiveDuration frames ts durationSec d := by
  have h1 : (i : ℤ) < ⌈effectiveDuration frames ts durationSec d / d⌉ := by
    rw [← segmentCount_cast frames ts durationSec d hd]
    exact_mod_cast hi
  rw [Int.lt_ceil] at h1
  push_cast at h1
  rw [lt_div_iff hd] at h1
  exact h1

theorem buildSegments_sublist (frames : List VideoIngestFrame)
    (ts : List VideoTranscriptSegment) (durationSec d : ℚ) :
    List.Sublist (buildSegments frames ts durationSec d)
      (buildSegmentsAll frames ts durationSec d) := by
  rw [buildSegments]
  have hsub : List.Sublist ((buildSegmentsAll frames ts durationSec d).enum.filter
      (fun p => keepSegment p.1 p.2)) (buildSegmentsAll frames ts durationSec d).enum :=
    List.filter_sublist _
  have hmap := hsub.map Prod.snd
  rwa [List.enum_map_snd] at hmap

/-- C1 (amended): the segments `buildSegments` *constructs* (before its
final retention filter, `buildSegmentsAll`) are contiguous (each
segment's `startSec` equals the previous segment's `endSec`),
non-overlapping (`startSec < endSec` throughout), start at 0, carry a
0-based ascending `index`, and the last one ends exactly at
`effectiveDuration = max(probedDuration, lastFrameTimestamp,
maxTranscriptEndSec, segmentDurationSec)`; the *returned* list is the
retention-filtered sublist of that construction, so dropped interior
segments can leave gaps and the returned last segment can end earlier
(see the counterexample). -/
theorem buildSegments_coverage (frames : List VideoIngestFrame)
    (ts : List VideoTranscriptSegment) (durationSec d : ℚ) (hd : 0 < d) :
    0 < (buildSegmentsAll frames ts durationSec d).length ∧
    (∀ i (h : i < (buildSegmentsAll frames ts durationSec d).length),
      ((buildSegmentsAll frames ts durationSec d).get ⟨i, h⟩).index = i) ∧
    (∀ h : 0 < (buildSegmentsAll frames ts durationSec d).length,
      ((buildSegmentsAll frames ts durationSec d).get ⟨0, h⟩).startSec = 0) ∧
    (∀ i (h : i < (buildSegmentsAll frames ts durationSec d).length),
      ((buildSegmentsAll frames ts durationSec d).get ⟨i, h⟩).startSec <
        ((buildSegmentsAll frames ts durationSec d).get ⟨i, h⟩).endSec) ∧
    (∀ i (h : i + 1 < (buildSegmentsAll frames ts durationSec d).length),
      ((buildSegmentsAll frames ts durationSec d).get ⟨i + 1, h⟩).startSec =
        ((buildSegmentsAll frames ts durationSec d).get
          ⟨i, Nat.lt_of_succ_lt h⟩).endSec) ∧
    (∀ h : 0 < (buildSegmentsAll frames ts durationSec d).length,
      ((buildSegmentsAll frames ts durationSec d).get
        ⟨(buildSegmentsAll frames ts durationSec d).length - 1, by omega⟩).endSec =
        effectiveDuration frames ts durationSec d) ∧
    List.Sublist (buildSegments frames ts durationSec d)
      (buildSegmentsAll frames ts durationSec d) := by
  have hlen := buildSegmentsAll_length frames ts durationSec d
  have hcount := segmentCount_pos frames ts durationSec d
  have hshape := buildSegmentsAll_get_segShape frames ts durationSec d
  have hidx : ∀ i (h : i < (buildSegmentsAll frames ts durationSec d).length),
      ((buildSegmentsAll frames ts durationSec d).get ⟨i, h⟩).index = i :=
    fun i h => congrArg Prod.fst (hshape i h)
  have hstart : ∀ i (h : i < (buildSegmentsAll frames ts durationSec d).length),
      ((buildSegmentsAll frames ts durationSec d).get ⟨i, h⟩).startSec = (i : ℚ) * d :=
    fun i h => congrArg (fun p => p.2.1) (hshape i h)
  have hend : ∀ i (h : i < (buildSegmentsAll frames ts durationSec d).length),
      ((buildSegmentsAll frames ts durationSec d).get ⟨i, h⟩).endSec =
        min (((i : ℚ) + 1) * d) (effectiveDuration frames ts durationSec d) :=
    fun i h => congrArg (fun p => p.2.2) (hshape i h)
  refine ⟨by omega, hidx, ?_, ?_, ?_, ?_, ?_⟩
  · intro h
    rw [hstart 0 h]
    norm_num
  · intro i h
    rw [hstart i h, hend i h]
    have hi : i < segmentCount frames ts durationSec d := by omega
    apply lt_min
    · have : (i : ℚ) < (i : ℚ) + 1 := by norm_num
      exact mul_lt_mul_of_pos_right this hd
    · exact lt_eff_of_lt_count frames ts durationSec d hd hi
  · intro i h
    rw [hstart (i + 1) h, hend i (Nat.lt_of_succ_lt h)]
    have hi1 : i + 1 < segmentCount frames ts durationSec d := by omega
    rw [min_eq_left (le_of_lt ?_)]
    · push_cast
      ring
    · have := lt_eff_of_lt_count frames ts durationSec d hd hi1
      push_cast at this ⊢
      linarith
  · intro h
    set n := (buildSegmentsAll frames ts durationSec d).length - 1 with hn
    rw [hend n (by omega)]
    have hcast : ((n : ℚ) + 1) = (segmentCount frames ts durationSec d : ℚ) := by
      have : n + 1 = segmentCount frames ts durationSec d := by omega
      push_cast [← this]
      ring
    rw [hcast, min_eq_right (eff_le_count_mul frames ts durationSec d hd)]
  · exact buildSegments_sublist frames ts durationSec d

theorem effectiveDuration_empty_50_20 : effectiveDuration [] [] (50 : ℚ) 20 = 50 := by
  rw [effectiveDuration]
  simp only [List.getLast?_nil, List.foldl_nil]
  rw [max_eq_left (by norm_num), max_eq_left (by norm_num), max_eq_left (by norm_num)]

theorem segmentCount_empty_50_20 : segmentCount [] [] (50 : ℚ) 20 = 3 := by
  rw [segmentCount, effectiveDuration_empty_50_20]
  rw [show ⌈(50 : ℚ) / 20⌉ = 3 from Int.ceil_eq_iff.mpr (by norm_num)]
  rfl

/-- C1 (counterexample): with no frames, no transcript, probed duration
50 and segment width 20, the *returned* (filtered) list keeps only
segment 0, whose `endSec` is 20 while `effectiveDuration` is 50 — the
returned last segment does not end at `effectiveDuration`. -/
theorem c1_counterexample :
    ∃ s, (buildSegments [] [] (50 : ℚ) 20).getLast? = some s ∧
      s.endSec ≠ effectiveDuration [] [] (50 : ℚ) 20 := by
  have hall : buildSegmentsAll [] [] (50 : ℚ) 20 =
      setRepresentatives (initSegments 3 20 (effectiveDuration [] [] (50 : ℚ) 20)) := by
    simp only [buildSegmentsAll, segmentCount_empty_50_20]
    rfl
  have hbs : buildSegments [] [] (50 : ℚ) 20 =
      [{ index := 0
         startSec := ((0 : ℕ) : ℚ) * 20
         endSec := min ((((0 : ℕ) : ℚ) + 1) * 20) (effectiveDuration [] [] (50 : ℚ) 20)
         framePaths := []
         representativeFramePath := none
         transcript := none }] := by
    rw [buildSegments, hall]
    rfl
  refine ⟨_, by rw [hbs]; rfl, ?_⟩
  rw [effectiveDuration_empty_50_20]
  rw [show (((0 : ℕ) : ℚ) + 1) * 20 = 20 by push_cast; ring]
  rw [min_eq_left (by norm_num)]
  norm_num

theorem proj_get_of_map_eq {α β : Type} {l₁ l₂ : List α} {f : α → β}
    (hmap : l₁.map f = l₂.map f) (i : ℕ) (h₁ : i < l₁.length) (h₂ : i < l₂.length) :
    f (l₁.get ⟨i, h₁⟩) = f (l₂.get ⟨i, h₂⟩) := by
  have h := congrArg (fun l => l.get? i) hmap
  simp only [List.get?_map] at h
  rw [List.get?_eq_get h₁, List.get?_eq_get h₂] at h
  try simp only [Option.map_some] at h
  injection h

theorem keepSegment_zero (seg : VideoIngestSegment) : keepSegment 0 seg = true := by
  simp [keepSegment]

theorem buildSegments_head (frames : List VideoIngestFrame)
    (ts : List VideoTranscriptSegment) (durationSec d : ℚ) :
    (buildSegments frames ts durationSec d).head? =
      (buildSegmentsAll frames ts durationSec d).head? := by
  rw [buildSegments]
  cases hall : buildSegmentsAll frames ts durationSec d with
  | nil => rfl
  | cons s rest =>
    rw [List.enum_cons, List.filter_cons_of_pos (by exact keepSegment_zero s), List.map_cons]
    rfl

theorem mem_buildSegmentsAll_position (frames : List VideoIngestFrame)
    (ts : List VideoTranscriptSegment) (durationSec d : ℚ) {seg : VideoIngestSegment}
    (h : seg ∈ buildSegmentsAll frames ts durationSec d) :
    ∃ hlt : seg.index < (buildSegmentsAll frames ts durationSec d).length,
      (buildSegmentsAll frames ts durationSec d).get ⟨seg.index, hlt⟩ = seg := by
  obtain ⟨⟨i, hi⟩, hget⟩ := List.mem_iff_get.mp h
  have hidx : seg.index = i := by
    rw [← hget]
    exact congrArg Prod.fst (buildSegmentsAll_get_segShape frames ts durationSec d i hi)
  subst hidx
  exact ⟨hi, hget⟩

theorem get_mem_buildSegments (frames : List VideoIngestFrame)
    (ts : List VideoTranscriptSegment) (durationSec d : ℚ) (i : ℕ)
    (h : i < (buildSegmentsAll frames ts durationSec d).length)
    (hkeep : keepSegment i ((buildSegmentsAll frames ts durationSec d).get ⟨i, h⟩) = true) :
    (buildSegmentsAll frames ts durationSec d).get ⟨i, h⟩ ∈
      buildSegments frames ts durationSec d := by
  rw [buildSegments]
  apply List.mem_map.mpr
  refine ⟨(i, (buildSegmentsAll frames ts durationSec d).get ⟨i, h⟩), ?_, rfl⟩
  apply List.mem_filter.mpr
  refine ⟨?_, hkeep⟩
  rw [List.mem_enum_iff_getElem?, List.getElem?_eq_getElem h]
  rfl

theorem mem_buildSegments_elim (frames : List VideoIngestFrame)
    (ts : List VideoTranscriptSegment) (durationSec d : ℚ) {seg : VideoIngestSegment}
    (h : seg ∈ buildSegments frames ts durationSec d) :
    seg ∈ buildSegmentsAll frames ts durationSec d ∧ keepSegment seg.index seg = true := by
  rw [buildSegments] at h
  obtain ⟨⟨i, s⟩, hmem, hsnd⟩ := List.mem_map.mp h
  have hseq : s = seg := hsnd
  subst hseq
  obtain ⟨henum, hkeep⟩ := List.mem_filter.mp hmem
  rw [List.mem_enum_iff_getElem?] at henum
  have hi : i < (buildSegmentsAll frames ts durationSec d).length := by
    by_contra hge
    rw [List.getElem?_eq_none (by omega)] at henum
    exact absurd henum (by simp)
  have hgeteq : (buildSegmentsAll frames ts durationSec d).get ⟨i, hi⟩ = s := by
    rw [List.getElem?_eq_getElem hi] at henum
    rw [List.get_eq_getElem]
    injection henum
  have hidx : s.index = i := by
    rw [← hgeteq]
    exact congrArg Prod.fst (buildSegmentsAll_get_segShape frames ts durationSec d i hi)
  constructor
  · rw [← hgeteq]
    exact List.get_mem _ _ _
  · rw [hidx]
    exact hkeep

/-- C5: segment 0 is always present (and first) in the returned list,
even with zero frames and zero transcript segments; every constructed
segment other than segment 0 appears in the returned list if and only
if its representative frame path or transcript text is truthy in the
JavaScript sense (present and non-empty). -/
theorem buildSegments_retention (frames : List VideoIngestFrame)
    (ts : List VideoTranscriptSegment) (durationSec d : ℚ) :
    ((buildSegments frames ts durationSec d).head? =
      (buildSegmentsAll frames ts durationSec d).head?) ∧
    (∃ s, (buildSegments frames ts durationSec d).head? = some s ∧ s.index = 0) ∧
    (∀ seg ∈ buildSegmentsAll frames ts durationSec d, seg.index ≠ 0 →
      (seg ∈ buildSegments frames ts durationSec d ↔
        (truthyStr seg.representativeFramePath = true ∨
         truthyChars seg.transcript = true))) := by
  have hlen := buildSegmentsAll_length frames ts durationSec d
  have hcount := segmentCount_pos frames ts durationSec d
  refine ⟨buildSegments_head frames ts durationSec d, ?_, ?_⟩
  · have h0 : 0 < (buildSegmentsAll frames ts durationSec d).length := by omega
    refine ⟨(buildSegmentsAll frames ts durationSec d).get ⟨0, h0⟩, ?_, ?_⟩
    · rw [buildSegments_head frames ts durationSec d]
      rw [← List.get?_eq_get h0]
      exact (List.get?_zero _).symm ▸ rfl
    · exact congrArg Prod.fst (buildSegmentsAll_get_segShape frames ts durationSec d 0 h0)
  · intro seg hmem hne
    constructor
    · intro hin
      obtain ⟨-, hkeep⟩ := mem_buildSegments_elim frames ts durationSec d hin
      rw [keepSegment, Bool.or_eq_true, Bool.or_eq_true, beq_iff_eq] at hkeep
      rcases hkeep with (h | h) | h
      · exact absurd h hne
      · exact Or.inl h
      · exact Or.inr h
    · intro htruthy
      obtain ⟨hlt, hget⟩ := mem_buildSegmentsAll_position frames ts durationSec d hmem
      have hkeep : keepSegment seg.index
          ((buildSegmentsAll frames ts durationSec d).get ⟨seg.index, hlt⟩) = true := by
        rw [hget, keepSegment]
        rcases htruthy with h | h <;> simp [h]
      have := get_mem_buildSegments frames ts durationSec d seg.index hlt hkeep
      rwa [hget] at this

theorem frameBucket_lt (t d : ℚ) (count : ℕ) (hc : 1 ≤ count) :
    frameBucket t d count < count := by
  rw [frameBucket]
  have h := min_le_right ⌊t / d⌋ ((count : ℤ) - 1)
  omega

theorem frameBucket_boundary (t d : ℚ) (count : ℕ) (hd : 0 < d) (hc : 1 ≤ count)
    (ht : t = (count : ℚ) * d) :
    frameBucket t d count = count - 1 := by
  rw [frameBucket, ht, mul_div_cancel_right₀ _ (ne_of_gt hd)]
  rw [show ⌊((count : ℕ) : ℚ)⌋ = (count : ℤ) from Int.floor_natCast count]
  rw [min_eq_right (by omega)]
  omega

/-- C8: for a non-negative frame timestamp, the clamped bucket index
`min(floor(timestampSec / segmentDurationSec), segmentCount - 1)` is
always within the bounds of the constructed segment array; in
particular a frame whose timestamp equals exactly
`segmentCount * segmentDurationSec` is assigned to the last segment. -/
theorem frameBucket_inBounds (frames : List VideoIngestFrame)
    (ts : List VideoTranscriptSegment) (durationSec d : ℚ) (hd : 0 < d)
    (t : ℚ) (ht : 0 ≤ t) :
    frameBucket t d (segmentCount frames ts durationSec d) <
      (buildSegmentsAll frames ts durationSec d).length ∧
    (t = (segmentCount frames ts durationSec d : ℚ) * d →
      frameBucket t d (segmentCount frames ts durationSec d) =
        (buildSegmentsAll frames ts durationSec d).length - 1) := by
  have hlen := buildSegmentsAll_length frames ts durationSec d
  have hcount := segmentCount_pos frames ts durationSec d
  constructor
  · rw [hlen]
    exact frameBucket_lt t d _ hcount
  · intro hteq
    rw [hlen]
    exact frameBucket_boundary t d _ hd hcount hteq

theorem get?_modifyAt (l : List α) (n : ℕ) (f : α → α) (i : ℕ) :
    (modifyAt l n f).get? i = if n = i then (l.get? i).map f else l.get? i := by
  induction l generalizing n i with
  | nil => simp [modifyAt]
  | cons a as ih =>
    cases n with
    | zero =>
      cases i with
      | zero => simp [modifyAt]
      | succ j => simp [modifyAt]
    | succ m =>
      cases i with
      | zero => simp [modifyAt]
      | succ j =>
        simp only [modifyAt, List.get?_cons_succ]
        rw [ih]
        by_cases hmj : m = j
        · rw [if_pos hmj, if_pos (by omega)]
        · rw [if_neg hmj, if_neg (by omega)]

theorem assignFrames_get?_framePaths (frames : List VideoIngestFrame)
    (segs : List VideoIngestSegment) (d : ℚ) (count : ℕ) (i : ℕ) :
    ((assignFrames segs frames d count).get? i).map (fun s => s.framePaths) =
      (segs.get? i).map (fun s => s.framePaths ++
        (frames.filter (fun f => frameBucket f.timestampSec d count == i)).map
          (fun f => f.path)) := by
  induction frames generalizing segs with
  | nil =>
    show (segs.get? i).map (fun s => s.framePaths) = _
    cases hsi : segs.get? i with
    | none => rfl
    | some s =>
      simp only [Option.map_some, List.filter_nil, List.map_nil, List.append_nil]
  | cons f fs ih =>
    rw [show assignFrames segs (f :: fs) d count = assignFrames
      (modifyAt segs (frameBucket f.timestampSec d count)
        (fun seg => { seg with framePaths := seg.framePaths ++ [f.path] })) fs d count
      from rfl]
    rw [ih, get?_modifyAt]
    by_cases hb : frameBucket f.timestampSec d count = i
    · rw [if_pos hb, List.filter_cons_of_pos (by simp [hb])]
      cases hsi : segs.get? i with
      | none => rfl
      | some s => simp [List.append_assoc]
    · rw [if_neg hb, List.filter_cons_of_neg (by simp [hb])]

theorem repFn_framePaths (s : VideoIngestSegment) :
    (match s.framePaths with
      | [] => s
      | p :: _ => { s with representativeFramePath := some p }).framePaths =
      s.framePaths := by
  rcases h : s.framePaths with _ | ⟨p, ps⟩
  · exact h
  · rfl

theorem repFn_rep_of_cons (s : VideoIngestSegment) (p : String) (ps : List String)
    (h : s.framePaths = p :: ps) :
    (match s.framePaths with
      | [] => s
      | p :: _ => { s with representativeFramePath := some p }).representativeFramePath =
      some p := by
  rw [h]

theorem buildSegmentsAll_fp_rep (frames : List VideoIngestFrame)
    (ts : List VideoTranscriptSegment) (durationSec d : ℚ) (i : ℕ)
    (h : i < (buildSegmentsAll frames ts durationSec d).length) :
    ((buildSegmentsAll frames ts durationSec d).get ⟨i, h⟩).framePaths =
      (frames.filter (fun f => frameBucket f.timestampSec d
        (segmentCount frames ts durationSec d) == i)).map (fun f => f.path) ∧
    (∀ p ps, ((buildSegmentsAll frames ts durationSec d).get ⟨i, h⟩).framePaths = p :: ps →
      ((buildSegmentsAll frames ts durationSec d).get ⟨i, h⟩).representativeFramePath =
        some p) := by
  have hlen := buildSegmentsAll_length frames ts durationSec d
  have hic : i < segmentCount frames ts durationSec d := by omega
  have hAfp0 : ((assignFrames (initSegments (segmentCount frames ts durationSec d) d
        (effectiveDuration frames ts durationSec d)) frames d
        (segmentCount frames ts durationSec d)).get? i).map (fun s => s.framePaths) =
      some ((frames.filter (fun f => frameBucket f.timestampSec d
        (segmentCount frames ts durationSec d) == i)).map (fun f => f.path)) := by
    rw [assignFrames_get?_framePaths]
    rw [initSegments, List.get?_map, List.get?_eq_get (by simpa using hic)]
    simp
  obtain ⟨segA, hsegA⟩ : ∃ segA, (assignFrames (initSegments
      (segmentCount frames ts durationSec d) d
      (effectiveDuration frames ts durationSec d)) frames d
      (segmentCount frames ts durationSec d)).get? i = some segA := by
    cases hAi : (assignFrames (initSegments (segmentCount frames ts durationSec d) d
        (effectiveDuration frames ts durationSec d)) frames d
        (segmentCount frames ts durationSec d)).get? i with
    | none => rw [hAi] at hAfp0; exact absurd hAfp0 (by simp)
    | some s => exact ⟨s, rfl⟩
  rw [hsegA] at hAfp0
  have hAfp : segA.framePaths = (frames.filter (fun f => frameBucket f.timestampSec d
      (segmentCount frames ts durationSec d) == i)).map (fun f => f.path) := by
    injection hAfp0
  have hmap : (buildSegmentsAll frames ts durationSec d).map
      (fun s => (s.framePaths, s.representativeFramePath)) =
      (setRepresentatives (assignFrames (initSegments
        (segmentCount frames ts durationSec d) d
        (effectiveDuration frames ts durationSec d)) frames d
        (segmentCount frames ts durationSec d))).map
        (fun s => (s.framePaths, s.representativeFramePath)) := by
    simp only [buildSegmentsAll]
    exact map_proj_applyTranscripts
      (fun s => (s.framePaths, s.representativeFramePath))
      (fun idx st en fp rep tr tr2 => rfl) ts _
  have hget : ((buildSegmentsAll frames ts durationSec d).get? i).map
      (fun s => (s.framePaths, s.representativeFramePath)) =
      ((setRepresentatives (assignFrames (initSegments
        (segmentCount frames ts durationSec d) d
        (effectiveDuration frames ts durationSec d)) frames d
        (segmentCount frames ts durationSec d))).get? i).map
        (fun s => (s.framePaths, s.representativeFramePath)) := by
    have hcg := congrArg (fun l => l.get? i) hmap
    simp only [List.get?_map] at hcg
    exact hcg
  rw [setRepresentatives, List.get?_map, hsegA, List.get?_eq_get h] at hget
  have hpair :
      (((buildSegmentsAll frames ts durationSec d).get ⟨i, h⟩).framePaths,
        ((buildSegmentsAll frames ts durationSec d).get ⟨i, h⟩).representativeFramePath) =
      ((match segA.framePaths with
          | [] => segA
          | p :: _ => { segA with representativeFramePath := some p }).framePaths,
        (match segA.framePaths with
          | [] => segA
          | p :: _ =>
            { segA with representativeFramePath := some p }).representativeFramePath) := by
    injection hget
  have hfst := congrArg Prod.fst hpair
  have hsnd := congrArg Prod.snd hpair
  simp only at hfst hsnd
  constructor
  · rw [hfst, repFn_framePaths, hAfp]
  · intro p ps hpp
    rw [hfst, repFn_framePaths] at hpp
    rw [hsnd, repFn_rep_of_cons segA p ps hpp]

theorem buildSegmentsAll_map_index (frames : List VideoIngestFrame)
    (ts : List VideoTranscriptSegment) (durationSec d : ℚ) :
    (buildSegmentsAll frames ts durationSec d).map (fun s => s.index) =
      List.range (segmentCount frames ts durationSec d) := by
  have h2 := congrArg (List.map Prod.fst) (buildSegmentsAll_map_segShape frames ts durationSec d)
  simp only [List.map_map] at h2
  calc (buildSegmentsAll frames ts durationSec d).map (fun s => s.index)
      = (buildSegmentsAll frames ts durationSec d).map (Prod.fst ∘ segShape) := rfl
    _ = (List.range (segmentCount frames ts durationSec d)).map
        (Prod.fst ∘ (fun i => ((i, (i : ℚ) * d,
          min (((i : ℚ) + 1) * d)
            (effectiveDuration frames ts durationSec d)) : ℕ × ℚ × ℚ))) := h2
    _ = List.range (segmentCount frames ts durationSec d) := List.map_id' _

/-- C10: under the invariants of extracted frames (non-negative
timestamps, non-empty paths), every returned segment's `framePaths` is
exactly the in-order sublist of input frame paths whose bucket is that
segment's index; every input frame's path appears in the (unique, by
the `Nodup` of indices) returned segment with index equal to its
bucket — a segment holding at least one frame path gains a truthy
representative and is never dropped. -/
theorem buildSegments_frame_partition (frames : List VideoIngestFrame)
    (ts : List VideoTranscriptSegment) (durationSec d : ℚ) (hd : 0 < d)
    (hts : ∀ f ∈ frames, 0 ≤ f.timestampSec) (hp : ∀ f ∈ frames, f.path ≠ "") :
    (∀ seg ∈ buildSegments frames ts durationSec d,
      seg.framePaths = (frames.filter (fun f =>
        frameBucket f.timestampSec d (segmentCount frames ts durationSec d) ==
          seg.index)).map (fun f => f.path)) ∧
    (∀ f ∈ frames, ∃ seg, seg ∈ buildSegments frames ts durationSec d ∧
      seg.index = frameBucket f.timestampSec d (segmentCount frames ts durationSec d) ∧
      f.path ∈ seg.framePaths) ∧
    ((buildSegments frames ts durationSec d).map (fun s => s.index)).Nodup := by
  have hlen := buildSegmentsAll_length frames ts durationSec d
  have hcount := segmentCount_pos frames ts durationSec d
  refine ⟨?_, ?_, ?_⟩
  · intro seg hseg
    obtain ⟨hall, -⟩ := mem_buildSegments_elim frames ts durationSec d hseg
    obtain ⟨hlt, hget⟩ := mem_buildSegmentsAll_position frames ts durationSec d hall
    have := (buildSegmentsAll_fp_rep frames ts durationSec d seg.index hlt).1
    rwa [hget] at this
  · intro f hf
    have hb : frameBucket f.timestampSec d (segmentCount frames ts durationSec d) <
        (buildSegmentsAll frames ts durationSec d).length := by
      rw [hlen]
      exact frameBucket_lt _ _ _ hcount
    obtain ⟨hfp, hrep⟩ := buildSegmentsAll_fp_rep frames ts durationSec d _ hb
    have hfmem : f ∈ frames.filter (fun f2 => frameBucket f2.timestampSec d
        (segmentCount frames ts durationSec d) ==
        frameBucket f.timestampSec d (segmentCount frames ts durationSec d)) :=
      List.mem_filter.mpr ⟨hf, by simp⟩
    have hpathmem : f.path ∈ ((buildSegmentsAll frames ts durationSec d).get
        ⟨frameBucket f.timestampSec d (segmentCount frames ts durationSec d), hb⟩).framePaths := by
      rw [hfp]
      exact List.mem_map.mpr ⟨f, hfmem, rfl⟩
    obtain ⟨p, ps, hcons⟩ := List.exists_cons_of_ne_nil
      (List.ne_nil_of_mem hpathmem)
    have hrepeq := hrep p ps hcons
    have hpne : p ≠ "" := by
      have hpmem : p ∈ ((buildSegmentsAll frames ts durationSec d).get
          ⟨frameBucket f.timestampSec d (segmentCount frames ts durationSec d),
            hb⟩).framePaths := by
        rw [hcons]
        exact List.mem_cons_self p ps
      rw [hfp] at hpmem
      obtain ⟨f2, hf2mem, hf2path⟩ := List.mem_map.mp hpmem
      rw [← hf2path]
      exact hp f2 (List.mem_filter.mp hf2mem).1
    have hkeep : keepSegment
        (frameBucket f.timestampSec d (segmentCount frames ts durationSec d))
        ((buildSegmentsAll frames ts durationSec d).get
          ⟨frameBucket f.timestampSec d (segmentCount frames ts durationSec d), hb⟩) =
        true := by
      rw [keepSegment, hrepeq]
      simp [truthyStr, hpne]
    have hmem := get_mem_buildSegments frames ts durationSec d _ hb hkeep
    refine ⟨_, hmem, ?_, hpathmem⟩
    exact congrArg Prod.fst (buildSegmentsAll_get_segShape frames ts durationSec d _ hb)
  · have hsub := (buildSegments_sublist frames ts durationSec d).map (fun s => s.index)
    rw [buildSegmentsAll_map_index] at hsub
    exact (List.nodup_range _).sublist hsub

/-- Witness for `buildSegments_coverage` at `d = 1`. -/
theorem buildSegments_coverage_witness :
    0 < (buildSegmentsAll [] [] (0 : ℚ) 1).length :=
  (buildSegments_coverage [] [] 0 1 (by norm_num)).1

/-- Witness for `buildSegments_retention` with no frames and no
transcript. -/
theorem buildSegments_retention_witness :
    ∃ s, (buildSegments [] [] (0 : ℚ) 1).head? = some s ∧ s.index = 0 :=
  (buildSegments_retention [] [] 0 1).2.1

theorem effectiveDuration_boundary_frame :
    effectiveDuration [⟨"f.jpg", "image/jpeg", 40⟩] [] (0 : ℚ) 20 = 40 := by
  rw [effectiveDuration]
  simp only [List.getLast?_singleton, List.foldl_nil]
  norm_num

theorem segmentCount_boundary_frame :
    segmentCount [⟨"f.jpg", "image/jpeg", 40⟩] [] (0 : ℚ) 20 = 2 := by
  rw [segmentCount, effectiveDuration_boundary_frame]
  rw [show ⌈(40 : ℚ) / 20⌉ = 2 from Int.ceil_eq_iff.mpr (by norm_num)]
  rfl

/-- Witness for `frameBucket_inBounds`: a frame at exactly
`segmentCount * segmentDurationSec = 40` lands in the last segment. -/
theorem frameBucket_inBounds_witness :
    frameBucket 40 20 (segmentCount [⟨"f.jpg", "image/jpeg", 40⟩] [] (0 : ℚ) 20) =
      (buildSegmentsAll [⟨"f.jpg", "image/jpeg", 40⟩] [] (0 : ℚ) 20).length - 1 :=
  (frameBucket_inBounds [⟨"f.jpg", "image/jpeg", 40⟩] [] 0 20 (by norm_num) 40
    (by norm_num)).2
    (by rw [segmentCount_boundary_frame]; norm_num)

/-- Witness for `buildSegments_frame_partition` with one frame. -/
theorem buildSegments_frame_partition_witness :
    ((buildSegments [⟨"a.jpg", "image/jpeg", 0⟩] [] (0 : ℚ) 20).map
      (fun s => s.index)).Nodup :=
  (buildSegments_frame_partition [⟨"a.jpg", "image/jpeg", 0⟩] [] 0 20 (by norm_num)
    (by intro f hf; rw [List.mem_singleton] at hf; subst hf; norm_num)
    (by intro f hf; rw [List.mem_singleton] at hf; subst hf; decide)).2.2
